import Mathlib

/-!
Formal model of the `yo` shell assistant (yo.c) and verification of the
behavioral claims about it.  Every definition is a shallow embedding of the
corresponding C function; machine strings are modelled as Lean `String` /
`List Char`, byte buffers as `List Nat`, and C `int` arithmetic as `Int`
(no overflow is exercised by the claims).  Out-of-memory behavior of
`malloc`/`realloc`/`strdup` is not modelled (allocation is assumed to
succeed).
-/

namespace Yo

/-! ## Conversation memory (yo_exchange_t, yo_history_*) -/

/-- One stored exchange (`yo_exchange_t` in yo.c). -/
structure Exchange where
  query : String
  response_type : String
  response : String
  tool_use_id : Option String
  executed : Bool
  pending : Bool
  deriving Repr, DecidableEq

/-- `yo_estimate_tokens`: total characters of all queries and responses,
divided by 4 (C integer division). -/
def yo_estimate_tokens (hist : List Exchange) : Nat :=
  (hist.foldl (fun total e => total + e.query.length + e.response.length) 0) / 4

/-- First loop of `yo_history_prune`: drop the oldest entry while
`count >= limit`.  (The C code would loop forever for `limit = 0`;
configuration enforces `limit >= 1`, and on the empty list we stop.) -/
def yo_prune_count (limit : Nat) : List Exchange → List Exchange
  | [] => []
  | e :: rest =>
    if (e :: rest).length ≥ limit then yo_prune_count limit rest else e :: rest

/-- Second loop of `yo_history_prune`: drop the oldest entry while
`count > 0 && yo_estimate_tokens() > yo_token_budget`. -/
def yo_prune_budget (budget : Nat) : List Exchange → List Exchange
  | [] => []
  | e :: rest =>
    if yo_estimate_tokens (e :: rest) > budget then yo_prune_budget budget rest
    else e :: rest

/-- `yo_history_prune`: count loop followed by budget loop. -/
def yo_history_prune (limit budget : Nat) (hist : List Exchange) : List Exchange :=
  yo_prune_budget budget (yo_prune_count limit hist)

/-- `yo_history_add`: prune, then append the new entry at the newest end. -/
def yo_history_add (limit budget : Nat) (hist : List Exchange) (e : Exchange) :
    List Exchange :=
  yo_history_prune limit budget hist ++ [e]

/-! Helper lemmas about pruning. -/

theorem yo_prune_count_length (limit : Nat) (hlim : 1 ≤ limit) :
    ∀ hist : List Exchange, (yo_prune_count limit hist).length ≤ limit - 1 := by
  intro hist
  induction hist with
  | nil => simp [yo_prune_count]
  | cons e rest ih =>
    rw [yo_prune_count]
    split
    · exact ih
    · next h =>
      have : (e :: rest).length < limit := Nat.lt_of_not_le h
      omega

theorem yo_prune_budget_sublist (budget : Nat) :
    ∀ hist : List Exchange, (yo_prune_budget budget hist).length ≤ hist.length := by
  intro hist
  induction hist with
  | nil => simp [yo_prune_budget]
  | cons e rest ih =>
    rw [yo_prune_budget]
    split
    · exact ih.trans (by simp)
    · simp

theorem yo_prune_budget_estimate (budget : Nat) :
    ∀ hist : List Exchange, yo_estimate_tokens (yo_prune_budget budget hist) ≤ budget := by
  intro hist
  induction hist with
  | nil => simp [yo_prune_budget, yo_estimate_tokens]
  | cons e rest ih =>
    rw [yo_prune_budget]
    split
    · exact ih
    · next h => exact Nat.le_of_not_lt h

/-- A 404-character query; its token estimate alone is 101. -/
def bigExchange : Exchange :=
  { query := String.mk (List.replicate 404 'a')
    response_type := "chat"
    response := ""
    tool_use_id := none
    executed := true
    pending := false }

set_option maxRecDepth 8000

/-- C1 (counterexample): with history limit 10 and token budget 100 (both
within the enforced lower bounds), a single `yo_history_add` of a
404-character query leaves the memory with a token estimate of 101 > 100
immediately after the add: pruning runs *before* the add and never accounts
for the entry being added. -/
theorem C1_counterexample :
    ¬ yo_estimate_tokens (yo_history_add 10 100 [] bigExchange) ≤ 100 := by
  decide

/-- C1 (amended): after every `yo_history_add` with configured limits
(history limit ≥ 1), the stored count is at most the limit, and the token
estimate of all stored exchanges *except the newly added one* is at most
the budget.  (The estimate including the new exchange can exceed the
budget, as the counterexample shows.) -/
theorem C1_amended (limit budget : Nat) (hlim : 1 ≤ limit)
    (hist : List Exchange) (e : Exchange) :
    (yo_history_add limit budget hist e).length ≤ limit ∧
      yo_estimate_tokens (yo_history_add limit budget hist e).dropLast ≤ budget := by
  constructor
  · have h1 := yo_prune_count_length limit hlim hist
    have h2 := yo_prune_budget_sublist budget (yo_prune_count limit hist)
    have : (yo_history_prune limit budget hist).length ≤ limit - 1 :=
      le_trans h2 h1
    simp only [yo_history_add, List.length_append, List.length_cons,
      List.length_nil]
    omega
  · have h := yo_prune_budget_estimate budget (yo_prune_count limit hist)
    simpa [yo_history_add, yo_history_prune] using h

/-- C1 (witness): instantiating the amended theorem at limit 1, budget 100,
a singleton history and a fresh exchange. -/
theorem C1_amended_witness :
    (yo_history_add 1 100 [bigExchange] bigExchange).length ≤ 1 ∧
      yo_estimate_tokens (yo_history_add 1 100 [bigExchange] bigExchange).dropLast ≤ 100 :=
  C1_amended 1 100 (by decide) [bigExchange] bigExchange

/-! ## Scrollback ring (yo_scrollback_t, yo_scrollback_append,
raw extraction step of rl_yo_get_scrollback) -/

/-- The shared scrollback ring (`yo_scrollback_t`): fixed capacity, circular
write position, running data size, and the backing byte buffer (modelled as
a list of `capacity` bytes). -/
structure Ring where
  capacity : Nat
  writePos : Nat
  dataSize : Nat
  data : List Nat
  deriving Repr

/-- One iteration of the write loop in `yo_scrollback_append`:
`data[write_pos] = b; write_pos = (write_pos + 1) % capacity`. -/
def yo_ring_append_byte (r : Ring) (b : Nat) : Ring :=
  { r with data := r.data.set r.writePos b
           writePos := (r.writePos + 1) % r.capacity }

/-- `yo_scrollback_append`: write the chunk byte by byte, then
`data_size += len`, saturating at `capacity`.  (`len == 0` returns early.) -/
def yo_scrollback_append (r : Ring) (chunk : List Nat) : Ring :=
  if chunk.isEmpty then r
  else
    let r2 := chunk.foldl yo_ring_append_byte r
    { r2 with dataSize := min (r.dataSize + chunk.length) r.capacity }

/-- The raw-byte extraction step of `rl_yo_get_scrollback` (before
line-limiting and ANSI stripping): if the buffer has not wrapped the data
starts at 0, otherwise it starts at `write_pos`. -/
def yo_ring_read_raw (r : Ring) : List Nat :=
  if r.dataSize < r.capacity then r.data.take r.dataSize
  else r.data.drop r.writePos ++ r.data.take r.writePos

/-- The freshly allocated ring (zeroed shared memory). -/
def yo_ring_init (c : Nat) : Ring :=
  { capacity := c, writePos := 0, dataSize := 0, data := List.replicate c 0 }

/-- A whole sequence of appends. -/
def yo_ring_append_all (r : Ring) (chunks : List (List Nat)) : Ring :=
  chunks.foldl yo_scrollback_append r

/-- The last `n` elements of a list. -/
def lastN (n : Nat) (l : List Nat) : List Nat :=
  l.drop (l.length - n)

/-- The ring buffer linearized so that it ends just before `write_pos`. -/
def unroll (r : Ring) : List Nat :=
  r.data.drop r.writePos ++ r.data.take r.writePos

theorem lastN_length (n : Nat) (l : List Nat) :
    (lastN n l).length = min n l.length := by
  simp [lastN]; omega

theorem lastN_all (l : List Nat) : lastN l.length l = l := by
  simp [lastN]

theorem lastN_append_singleton {m : Nat} {x : List Nat} (b : Nat)
    (h : m ≤ x.length) : lastN (m + 1) (x ++ [b]) = lastN m x ++ [b] := by
  unfold lastN
  rw [List.length_append]
  have h1 : x.length + [b].length - (m + 1) = x.length - m := by
    simp only [List.length_cons, List.length_nil]
    omega
  rw [h1, List.drop_append_of_le_length (by omega)]

theorem lastN_drop_one {m : Nat} {l : List Nat} (h : m + 1 ≤ l.length) :
    lastN m (l.drop 1) = lastN m l := by
  unfold lastN
  rw [List.length_drop, List.drop_drop]
  congr 1
  omega

theorem lastN_lastN {m k : Nat} {l : List Nat} (hmk : m ≤ k)
    (hkl : k ≤ l.length) : lastN m (lastN k l) = lastN m l := by
  unfold lastN
  rw [List.length_drop, List.drop_drop]
  congr 1
  omega

/-- Core per-byte invariant of the circular write loop: the position
and the tail of the linearized buffer track the bytes written so far. -/
def RingCoreInv (C : Nat) (B : List Nat) (r : Ring) : Prop :=
  r.capacity = C ∧ r.data.length = C ∧ r.writePos = B.length % C ∧
    lastN (min B.length C) (unroll r) = lastN (min B.length C) B

theorem unroll_length (r : Ring) (h : r.writePos ≤ r.data.length) :
    (unroll r).length = r.data.length := by
  simp [unroll]; omega

theorem unroll_append_byte (r : Ring) (b : Nat) (hC : 0 < r.capacity)
    (hlen : r.data.length = r.capacity) (hwp : r.writePos < r.capacity) :
    unroll (yo_ring_append_byte r b) = (unroll r).drop 1 ++ [b] := by
  have hwp' : r.writePos < r.data.length := by omega
  by_cases hlast : r.writePos + 1 = r.capacity
  · -- wrap-around step: the new write position is 0
    have hmod : (r.writePos + 1) % r.capacity = 0 := by
      rw [hlast, Nat.mod_self]
    have hdropC : r.data.drop (r.writePos + 1) = [] := by
      apply List.drop_eq_nil_of_le; omega
    unfold unroll yo_ring_append_byte
    simp only [hmod, List.drop_zero, List.take_zero, List.append_nil]
    rw [List.set_eq_take_append_cons_drop]
    simp only [hwp', if_true]
    rw [hdropC]
    have h1 : (r.data.drop r.writePos).length = 1 := by
      rw [List.length_drop]; omega
    rw [List.drop_append_of_le_length (by omega), List.drop_drop]
    have h2 : r.data.drop (r.writePos + 1) = [] := hdropC
    simp [h2]
  · -- non-wrapping step
    have hmod : (r.writePos + 1) % r.capacity = r.writePos + 1 :=
      Nat.mod_eq_of_lt (by omega)
    unfold unroll yo_ring_append_byte
    simp only [hmod]
    rw [List.drop_set]
    simp only [Nat.lt_succ_self, if_true]
    rw [List.set_eq_take_append_cons_drop]
    simp only [hwp', if_true]
    rw [List.take_append_eq_append_take, List.take_take]
    have h3 : min (r.writePos + 1) r.writePos = r.writePos := by omega
    have h4 : (r.data.take r.writePos).length = r.writePos := by
      rw [List.length_take]; omega
    rw [h3, h4]
    have h5 : r.writePos + 1 - r.writePos = 1 := by omega
    rw [h5]
    have h6 : (r.data.drop r.writePos).length = r.capacity - r.writePos := by
      rw [List.length_drop]; omega
    rw [List.drop_append_of_le_length (by omega), List.drop_drop]
    simp [List.take_cons]

theorem ring_core_inv_append_byte {C : Nat} {B : List Nat} {r : Ring}
    (hC : 0 < C) (hinv : RingCoreInv C B r) (b : Nat) :
    RingCoreInv C (B ++ [b]) (yo_ring_append_byte r b) := by
  obtain ⟨hcap, hlen, hwp, hsuf⟩ := hinv
  have hwplt : r.writePos < C := by
    rw [hwp]; exact Nat.mod_lt _ hC
  have hulen : (unroll r).length = C := by
    rw [unroll_length r (by omega)]; exact hlen
  refine ⟨by simp [yo_ring_append_byte, hcap], by simp [yo_ring_append_byte, hlen], ?_, ?_⟩
  · simp only [yo_ring_append_byte, hcap, hwp, List.length_append,
      List.length_cons, List.length_nil]
    rw [Nat.mod_add_mod]
  · have hu := unroll_append_byte r b (by omega) (by omega) (by omega)
    rw [hu]
    set k := min B.length C with hk
    set k' := min (B ++ [b]).length C with hk'
    have hBlen : (B ++ [b]).length = B.length + 1 := by simp
    have hk'pos : 1 ≤ k' := by rw [hk', hBlen]; omega
    have hk'le : k' ≤ C := by rw [hk']; omega
    have hkle : k ≤ C := by rw [hk]; omega
    have hkB : k ≤ B.length := by rw [hk]; omega
    have hstep : k' - 1 ≤ k := by rw [hk', hk, hBlen]; omega
    have e1 : lastN k' ((unroll r).drop 1 ++ [b]) =
        lastN (k' - 1) ((unroll r).drop 1) ++ [b] := by
      have h := lastN_append_singleton (m := k' - 1) (x := (unroll r).drop 1) b
        (by rw [List.length_drop, hulen]; omega)
      rw [show k' - 1 + 1 = k' from by omega] at h
      exact h
    have e2 : lastN (k' - 1) ((unroll r).drop 1) = lastN (k' - 1) (unroll r) :=
      lastN_drop_one (by rw [hulen]; omega)
    have e3 : lastN (k' - 1) (unroll r) = lastN (k' - 1) B := by
      calc lastN (k' - 1) (unroll r) = lastN (k' - 1) (lastN k (unroll r)) :=
            (lastN_lastN hstep (by rw [hulen]; exact hkle)).symm
        _ = lastN (k' - 1) (lastN k B) := by rw [hsuf]
        _ = lastN (k' - 1) B := lastN_lastN hstep hkB
    have e4 : lastN (k' - 1) B ++ [b] = lastN k' (B ++ [b]) := by
      have h := lastN_append_singleton (m := k' - 1) (x := B) b
        (by rw [hk', hBlen] at hk'le ⊢; omega)
      rw [show k' - 1 + 1 = k' from by omega] at h
      exact h.symm
    rw [e1, e2, e3, e4]

theorem ring_core_inv_fold {C : Nat} (hC : 0 < C) :
    ∀ (chunk : List Nat) (B : List Nat) (r : Ring), RingCoreInv C B r →
      RingCoreInv C (B ++ chunk) (chunk.foldl yo_ring_append_byte r) := by
  intro chunk
  induction chunk with
  | nil => intro B r h; simpa using h
  | cons b rest ih =>
    intro B r h
    have h1 := ring_core_inv_append_byte hC h b
    have h2 := ih (B ++ [b]) _ h1
    simpa using h2

/-- Full ring invariant: core invariant plus the saturating `data_size`. -/
def RingInv (C : Nat) (B : List Nat) (r : Ring) : Prop :=
  RingCoreInv C B r ∧ r.dataSize = min B.length C

theorem ring_inv_append {C : Nat} {B : List Nat} {r : Ring} (hC : 0 < C)
    (hinv : RingInv C B r) (chunk : List Nat) :
    RingInv C (B ++ chunk) (yo_scrollback_append r chunk) := by
  obtain ⟨hcore, hds⟩ := hinv
  cases chunk with
  | nil =>
    simp only [yo_scrollback_append, List.isEmpty_nil, if_true, List.append_nil]
    exact ⟨hcore, hds⟩
  | cons x xs =>
    obtain ⟨h1, h2, h3, h4⟩ := ring_core_inv_fold hC (x :: xs) B r hcore
    simp only [yo_scrollback_append, List.isEmpty_cons, if_false, Bool.false_eq_true]
    refine ⟨⟨?_, ?_, ?_, ?_⟩, ?_⟩
    · exact h1
    · exact h2
    · exact h3
    · simpa [unroll] using h4
    · simp only [List.length_append, hds, hcore.1]
      omega

theorem ring_inv_read {C : Nat} {B : List Nat} {r : Ring} (hC : 0 < C)
    (hinv : RingInv C B r) :
    yo_ring_read_raw r = lastN (min B.length C) B := by
  obtain ⟨⟨hcap, hlen, hwp, hsuf⟩, hds⟩ := hinv
  unfold yo_ring_read_raw
  by_cases hlt : r.dataSize < r.capacity
  · simp only [hlt, if_true]
    have hBC : B.length < C := by
      rw [hds, hcap] at hlt; omega
    have hmin : min B.length C = B.length := by omega
    have hwp' : r.writePos = B.length := by
      rw [hwp, Nat.mod_eq_of_lt hBC]
    rw [hmin] at hsuf
    have hlast : lastN B.length (unroll r) = r.data.take B.length := by
      unfold lastN unroll
      rw [hwp', List.length_append, List.length_drop, List.length_take, hlen]
      have harith : C - B.length + min B.length C - B.length =
          (r.data.drop B.length).length := by
        rw [List.length_drop, hlen]; omega
      rw [harith]
      exact List.drop_left _ _
    have hfinal : r.data.take B.length = B := by
      rw [hlast] at hsuf
      rw [lastN_all] at hsuf
      exact hsuf
    rw [hds, hmin, hfinal, lastN_all]
  · simp only [hlt, if_false]
    have hminC : min B.length C = C := by
      rw [hds, hcap] at hlt; omega
    have hulen : (unroll r).length = C := by
      rw [unroll_length r ?_]
      · exact hlen
      · rw [hlen, hwp]; exact le_of_lt (Nat.mod_lt _ hC)
    have hid : lastN C (unroll r) = unroll r := by
      unfold lastN
      rw [hulen]
      simp
    rw [hminC] at hsuf ⊢
    rw [← hsuf, hid]
    rfl

/-- C5: for every sequence of appends totalling `N` bytes into a ring of
capacity `C > 0`, the raw byte string reconstructed by the read operation
(before line-limiting and ANSI stripping) is the last `min N C` bytes
appended, in append order. -/
theorem C5_ring_read_last_bytes (C : Nat) (hC : 0 < C)
    (chunks : List (List Nat)) :
    yo_ring_read_raw (yo_ring_append_all (yo_ring_init C) chunks) =
      lastN (min (chunks.flatten).length C) (chunks.flatten) := by
  have hinit : RingInv C [] (yo_ring_init C) := by
    refine ⟨⟨rfl, by simp [yo_ring_init], by simp [yo_ring_init], ?_⟩, by simp [yo_ring_init]⟩
    simp [yo_ring_init, unroll, lastN]
  have hfold : ∀ (cs : List (List Nat)) (B : List Nat) (r : Ring), RingInv C B r →
      RingInv C (B ++ cs.flatten) (yo_ring_append_all r cs) := by
    intro cs
    induction cs with
    | nil => intro B r h; simpa [yo_ring_append_all] using h
    | cons c rest ih =>
      intro B r h
      have h1 := ring_inv_append hC h c
      have h2 := ih (B ++ c) _ h1
      simpa [yo_ring_append_all, List.append_assoc] using h2
  have h := hfold chunks [] _ hinit
  simp only [List.nil_append] at h
  exact ring_inv_read hC h

/-- C5 (witness): capacity 3, appending [1,2] then [3,4,5] reads back
[3,4,5], the last three bytes. -/
theorem C5_ring_read_last_bytes_witness :
    yo_ring_read_raw (yo_ring_append_all (yo_ring_init 3) [[1, 2], [3, 4, 5]]) =
      lastN (min ([[1, 2], [3, 4, 5]].flatten).length 3) ([[1, 2], [3, 4, 5]].flatten) :=
  C5_ring_read_last_bytes 3 (by decide) [[1, 2], [3, 4, 5]]

/-! ## ANSI stripping (the copy loop of rl_yo_get_scrollback) -/

/-- The ESC byte. -/
def escChar : Char := Char.ofNat 27

/-- The final-letter test of the CSI skip loop:
`(*p >= 'A' && *p <= 'Z') || (*p >= 'a' && *p <= 'z')`. -/
def isCsiFinal (c : Char) : Bool :=
  (65 ≤ c.toNat && c.toNat ≤ 90) || (97 ≤ c.toNat && c.toNat ≤ 122)

mutual
/-- The ANSI-stripping copy loop of `rl_yo_get_scrollback`: CSI sequences
`ESC [ … letter` are dropped, `ESC x` pairs are dropped, and a lone ESC at
the very end of the input is copied through (the C code falls through to
the copy statement when `*(p+1)` is NUL). -/
def yoStrip : List Char → List Char
  | [] => []
  | c :: rest =>
    if c = escChar then
      match rest with
      | [] => [c]
      | c2 :: rest2 =>
        if c2 = '[' then yoStripCsi rest2
        else yoStrip rest2
    else c :: yoStrip rest

/-- The inner CSI skip: advance until a letter (which is skipped too) or the
end of the string (which aborts the whole copy loop: `break`). -/
def yoStripCsi : List Char → List Char
  | [] => []
  | c :: rest => if isCsiFinal c then yoStrip rest else yoStripCsi rest
end

theorem yoStrip_nil : yoStrip [] = [] := rfl

theorem yoStrip_cons (c : Char) (rest : List Char) : yoStrip (c :: rest) =
    if c = escChar then
      match rest with
      | [] => [c]
      | c2 :: rest2 =>
        if c2 = '[' then yoStripCsi rest2
        else yoStrip rest2
    else c :: yoStrip rest := by
  rw [yoStrip.eq_def]

theorem yoStripCsi_nil : yoStripCsi [] = [] := rfl

theorem yoStripCsi_cons (c : Char) (rest : List Char) : yoStripCsi (c :: rest) =
    if isCsiFinal c then yoStrip rest else yoStripCsi rest := by
  rw [yoStripCsi.eq_def]

/-- No ESC anywhere except possibly as the very last character. -/
def TailEscOnly (l : List Char) : Prop := escChar ∉ l.dropLast

theorem tailEscOnly_nil : TailEscOnly [] := by simp [TailEscOnly]

theorem tailEscOnly_cons {c : Char} {l : List Char} (hc : c ≠ escChar)
    (hl : TailEscOnly l) : TailEscOnly (c :: l) := by
  unfold TailEscOnly at hl ⊢
  cases l with
  | nil => simp
  | cons x xs =>
    rw [List.dropLast_cons₂]
    intro hmem
    rcases List.mem_cons.1 hmem with h | h
    · exact hc h.symm
    · exact hl h

theorem yoStrip_tailEscOnly :
    ∀ n (l : List Char), l.length ≤ n →
      TailEscOnly (yoStrip l) ∧ TailEscOnly (yoStripCsi l) := by
  intro n
  induction n with
  | zero =>
    intro l hl
    have : l = [] := List.eq_nil_of_length_eq_zero (Nat.le_zero.1 hl)
    subst this
    exact ⟨by simp [yoStrip, tailEscOnly_nil], by simp [yoStripCsi, tailEscOnly_nil]⟩
  | succ n ih =>
    intro l hl
    constructor
    · match l with
      | [] => simpa [yoStrip_nil] using tailEscOnly_nil
      | c :: rest =>
        rw [yoStrip_cons]
        split
        · match rest with
          | [] => simp [TailEscOnly]
          | c2 :: rest2 =>
            simp only
            split
            · exact (ih rest2 (by simp at hl; omega)).2
            · exact (ih rest2 (by simp at hl; omega)).1
        · next hc =>
          exact tailEscOnly_cons hc (ih rest (by simp at hl; omega)).1
    · match l with
      | [] => simpa [yoStripCsi_nil] using tailEscOnly_nil
      | c :: rest =>
        rw [yoStripCsi_cons]
        split
        · exact (ih rest (by simp at hl; omega)).1
        · exact (ih rest (by simp at hl; omega)).2

theorem yoStrip_id_of_tailEscOnly :
    ∀ l : List Char, TailEscOnly l → yoStrip l = l := by
  intro l
  induction l with
  | nil => intro _; rfl
  | cons c rest ih =>
    intro h
    rw [yoStrip_cons]
    by_cases hc : c = escChar
    · subst hc
      match rest with
      | [] => simp
      | x :: xs =>
        exfalso
        unfold TailEscOnly at h
        rw [List.dropLast_cons₂] at h
        exact h (List.mem_cons_self _ _)
    · simp only [hc, if_false]
      congr 1
      apply ih
      unfold TailEscOnly at h ⊢
      cases rest with
      | nil => simp
      | cons x xs =>
        rw [List.dropLast_cons₂] at h
        intro hmem
        exact h (List.mem_cons_of_mem _ hmem)

/-- C9: the ANSI-stripping transformation applied by the scrollback read
path is idempotent: stripping the result of a strip changes nothing. -/
theorem C9_strip_idempotent (l : List Char) :
    yoStrip (yoStrip l) = yoStrip l :=
  yoStrip_id_of_tailEscOnly (yoStrip l)
    (yoStrip_tailEscOnly l.length l le_rfl).1

/-! ## C integer formatting (snprintf %d) and parsing (atoi) -/

/-- Decimal digit characters of `n`, most significant first (the output of
`snprintf(buf, _, "%d", n)` for `n ≥ 0`). -/
def natDecChars (n : Nat) : List Char :=
  if n = 0 then ['0'] else ((Nat.digits 10 n).map Nat.digitChar).reverse

/-- `snprintf(buf, _, "%d", n)` (C int modelled as unbounded `Int`). -/
def snprintfD (n : Int) : String :=
  if n < 0 then String.mk ('-' :: natDecChars n.natAbs)
  else String.mk (natDecChars n.natAbs)

/-- `isspace` on the C (POSIX) locale. -/
def isSpaceByte (c : Char) : Bool :=
  c.toNat = 32 || c.toNat = 9 || c.toNat = 10 || c.toNat = 11 ||
    c.toNat = 12 || c.toNat = 13

/-- `isdigit`. -/
def isDigitByte (c : Char) : Bool :=
  48 ≤ c.toNat && c.toNat ≤ 57

/-- The digit-accumulation loop of `atoi`. -/
def atoiDigits : List Char → Nat → Nat
  | [], acc => acc
  | c :: rest, acc =>
    if isDigitByte c then atoiDigits rest (acc * 10 + (c.toNat - 48)) else acc

/-- C `atoi`: skip whitespace, optional sign, then digits. -/
def atoiList (l : List Char) : Int :=
  match l.dropWhile isSpaceByte with
  | [] => 0
  | c :: rest =>
    if c = '-' then -(atoiDigits rest 0 : Int)
    else if c = '+' then (atoiDigits rest 0 : Int)
    else (atoiDigits (c :: rest) 0 : Int)

/-- `atoi` on a C string. -/
def atoi (s : String) : Int := atoiList s.data

theorem digitChar_toNat {d : Nat} (h : d < 10) :
    (Nat.digitChar d).toNat = 48 + d := by
  interval_cases d <;> rfl

theorem isDigitByte_digitChar {d : Nat} (h : d < 10) :
    isDigitByte (Nat.digitChar d) = true := by
  interval_cases d <;> rfl

theorem atoiDigits_eq_foldl (bs : List Char)
    (h : ∀ c ∈ bs, isDigitByte c = true) :
    ∀ acc, atoiDigits bs acc =
      bs.foldl (fun a c => a * 10 + (c.toNat - 48)) acc := by
  induction bs with
  | nil => intro acc; rfl
  | cons c rest ih =>
    intro acc
    rw [atoiDigits, h c (List.mem_cons_self _ _), if_pos rfl]
    · rw [List.foldl_cons, ih (fun x hx => h x (List.mem_cons_of_mem _ hx))]

theorem foldl_digits_reverse (ds : List Nat) :
    ∀ acc, List.foldl (fun a d => a * 10 + d) acc ds.reverse =
      acc * 10 ^ ds.length + Nat.ofDigits 10 ds := by
  induction ds with
  | nil => intro acc; simp [Nat.ofDigits]
  | cons d t ih =>
    intro acc
    rw [List.reverse_cons, List.foldl_append, ih acc, Nat.ofDigits_cons]
    simp [List.foldl_cons, pow_succ]
    ring

theorem atoiDigits_natDecChars (n : Nat) : atoiDigits (natDecChars n) 0 = n := by
  by_cases h0 : n = 0
  · subst h0; decide
  · unfold natDecChars
    rw [if_neg h0]
    have hd : ∀ d ∈ Nat.digits 10 n, d < 10 :=
      fun d hdm => Nat.digits_lt_base (by norm_num) hdm
    have hall : ∀ c ∈ ((Nat.digits 10 n).map Nat.digitChar).reverse,
        isDigitByte c = true := by
      intro c hc
      rw [List.mem_reverse, List.mem_map] at hc
      obtain ⟨d, hdm, rfl⟩ := hc
      exact isDigitByte_digitChar (hd d hdm)
    rw [atoiDigits_eq_foldl _ hall, ← List.map_reverse]
    rw [List.foldl_map]
    have hcong : List.foldl
        (fun a d => a * 10 + ((Nat.digitChar d).toNat - 48)) 0
          (Nat.digits 10 n).reverse =
        List.foldl (fun a d => a * 10 + d) 0 (Nat.digits 10 n).reverse := by
      apply List.foldl_ext
      intro a d hdm
      rw [List.mem_reverse] at hdm
      rw [digitChar_toNat (hd d hdm)]
      omega
    rw [hcong, foldl_digits_reverse]
    simp [Nat.ofDigits_digits]

theorem natDecChars_ne_nil (n : Nat) : natDecChars n ≠ [] := by
  unfold natDecChars
  by_cases h0 : n = 0
  · simp [h0]
  · rw [if_neg h0]
    simp only [ne_eq, List.reverse_eq_nil_iff, List.map_eq_nil_iff]
    exact Nat.digits_ne_nil_iff_ne_zero.2 h0

theorem natDecChars_head_digit (n : Nat) :
    ∀ c rest, natDecChars n = c :: rest → isDigitByte c = true := by
  intro c rest h
  have hmem : c ∈ natDecChars n := by rw [h]; exact List.mem_cons_self _ _
  unfold natDecChars at hmem
  by_cases h0 : n = 0
  · rw [h0] at hmem; simp at hmem; subst hmem; rfl
  · rw [if_neg h0] at hmem
    rw [List.mem_reverse, List.mem_map] at hmem
    obtain ⟨d, hdm, rfl⟩ := hmem
    exact isDigitByte_digitChar (Nat.digits_lt_base (by norm_num) hdm)

theorem atoiList_cons_eq (c : Char) (rest : List Char)
    (hns : isSpaceByte c = false) :
    atoiList (c :: rest) =
      if c = '-' then -(atoiDigits rest 0 : Int)
      else if c = '+' then (atoiDigits rest 0 : Int)
      else (atoiDigits (c :: rest) 0 : Int) := by
  unfold atoiList
  rw [List.dropWhile_cons, hns]
  simp only [Bool.false_eq_true, if_false]

theorem atoiList_natDecChars (n : Nat) : atoiList (natDecChars n) = n := by
  obtain ⟨c, rest, hcr⟩ : ∃ c rest, natDecChars n = c :: rest := by
    cases h : natDecChars n with
    | nil => exact absurd h (natDecChars_ne_nil n)
    | cons c rest => exact ⟨c, rest, rfl⟩
  have hdig : isDigitByte c = true := natDecChars_head_digit n c rest hcr
  have htoNat : 48 ≤ c.toNat ∧ c.toNat ≤ 57 := by
    unfold isDigitByte at hdig
    simp only [Bool.and_eq_true, decide_eq_true_eq] at hdig
    exact hdig
  have hnspace : isSpaceByte c = false := by
    unfold isSpaceByte
    simp only [Bool.or_eq_false_iff, decide_eq_false_iff_not]
    omega
  have hnminus : ¬ c = '-' := by
    intro h
    have : c.toNat = 45 := by rw [h]; rfl
    omega
  have hnplus : ¬ c = '+' := by
    intro h
    have : c.toNat = 43 := by rw [h]; rfl
    omega
  rw [hcr, atoiList_cons_eq c rest hnspace, if_neg hnminus, if_neg hnplus,
    ← hcr, atoiDigits_natDecChars]

/-- `atoi` inverts `%d` formatting. -/
theorem atoi_snprintfD (n : Int) : atoi (snprintfD n) = n := by
  unfold atoi snprintfD
  by_cases hneg : n < 0
  · rw [if_pos hneg]
    show atoiList ('-' :: natDecChars n.natAbs) = n
    rw [atoiList_cons_eq '-' _ (by decide), if_pos rfl,
      atoiDigits_natDecChars]
    omega
  · rw [if_neg hneg]
    show atoiList (natDecChars n.natAbs) = n
    rw [atoiList_natDecChars]
    omega

/-! ## JSON values (cJSON) and response parsing (yo_parse_response) -/

/-- A parsed cJSON value.  Object children carry their key; array children
do not.  Numbers are modelled as `Int` (the code only ever truncates
`valuedouble` to `int`). -/
inductive JVal where
  | jstr (s : String)
  | jnum (n : Int)
  | jtrue
  | jfalse
  | jnull
  | jobj (fields : List (String × JVal))
  | jarr (items : List JVal)
  deriving Repr

/-- ASCII `tolower` in the C locale (used by `strcasecmp`). -/
def lowerChar (c : Char) : Char :=
  if 65 ≤ c.toNat ∧ c.toNat ≤ 90 then Char.ofNat (c.toNat + 32) else c

/-- `strcasecmp(a, b) == 0`. -/
def strCaseEq (a b : String) : Bool :=
  a.data.map lowerChar == b.data.map lowerChar

/-- The child scan of `cJSON_GetObjectItem`: walk the children while the
child has a key that differs case-insensitively from the request. -/
def findField : List (String × JVal) → String → Option JVal
  | [], _ => none
  | (n, v) :: rest, key =>
    if strCaseEq n key then some v else findField rest key

/-- `cJSON_GetObjectItem`.  On an object it returns the first field whose
key matches case-insensitively.  On a non-empty array the scan stops at the
first (key-less) child and returns it — a quirk of this cJSON version kept
for faithfulness.  On anything else there are no children and it returns
NULL. -/
def cGetObjectItem : JVal → String → Option JVal
  | .jobj fields, key => findField fields key
  | .jarr (x :: _), _ => some x
  | _, _ => none

/-- `item != NULL && cJSON_IsString(item)`, extracting `valuestring`. -/
def asString : Option JVal → Option String
  | some (.jstr s) => some s
  | _ => none

/-- `item != NULL && cJSON_IsTrue(item)`. -/
def isTrueItem : Option JVal → Bool
  | some .jtrue => true
  | _ => false

/-- The five outputs of `yo_parse_response` (the C function writes through
`type`, `content`, `explanation`, `tool_use_id`, `pending` pointers and
returns an int). -/
structure ParseOut where
  ok : Bool
  type : Option String
  content : Option String
  explanation : Option String
  tool_use_id : Option String
  pending : Bool
  deriving Repr, DecidableEq

/-- `yo_parse_response`: extract the tool name, id and per-tool input
fields from a `tool_use` JSON object.  On the failure paths the C code
frees and NULLs `*type` and `*tool_use_id` but leaves `*explanation` and
`*pending` as already written. -/
def yo_parse_response (tool_use : JVal) : ParseOut :=
  match asString (cGetObjectItem tool_use "name") with
  | none => ⟨false, none, none, none, none, false⟩
  | some name =>
    let tid := asString (cGetObjectItem tool_use "id")
    match cGetObjectItem tool_use "input" with
    | none =>
      if name = "docs" then ⟨true, some name, some "", none, tid, false⟩
      else ⟨false, none, none, none, none, false⟩
    | some input =>
      let content : Option String :=
        if name = "command" then asString (cGetObjectItem input "command")
        else if name = "chat" then asString (cGetObjectItem input "response")
        else if name = "scrollback" then
          some (match cGetObjectItem input "lines" with
                | some (.jnum n) => snprintfD n
                | _ => "50")
        else if name = "docs" then some ""
        else none
      let explanation : Option String :=
        if name = "command" then asString (cGetObjectItem input "explanation")
        else none
      let pending : Bool :=
        if name = "command" then isTrueItem (cGetObjectItem input "pending")
        else false
      match content with
      | none => ⟨false, none, none, explanation, none, pending⟩
      | some c => ⟨true, some name, some c, explanation, tid, pending⟩

/-- The clamp applied to the `lines` value in `yo_handle_requests`:
`atoi`, then `<= 0 → 50`, `> 1000 → 1000`. -/
def yo_effective_lines (content : String) : Int :=
  let n := atoi content
  if n ≤ 0 then 50 else if n > 1000 then 1000 else n

/-- A `tool_use` JSON object as produced by the API. -/
def mkToolUse (name id : String) (input : Option JVal) : JVal :=
  match input with
  | none => .jobj [("name", .jstr name), ("id", .jstr id)]
  | some inp => .jobj [("name", .jstr name), ("id", .jstr id), ("input", inp)]

/-- C6: for every `scrollback` tool-use, the effective lines count that the
sub-request handler passes to `rl_yo_get_scrollback` is 50 when the `lines`
argument is missing or not a number, 50 when it is zero or negative, 1000
when it exceeds 1000, and otherwise exactly the argument. -/
theorem C6_effective_lines (input : List (String × JVal)) (id : String) :
    match (yo_parse_response (mkToolUse "scrollback" id (some (.jobj input)))).content with
    | some c =>
        yo_effective_lines c =
          match cGetObjectItem (.jobj input) "lines" with
          | some (.jnum n) => if n ≤ 0 then 50 else if n > 1000 then 1000 else n
          | _ => 50
    | none => False := by
  show match (yo_parse_response (mkToolUse "scrollback" id (some (.jobj input)))).content with
    | some c =>
        yo_effective_lines c =
          match cGetObjectItem (.jobj input) "lines" with
          | some (.jnum n) => if n ≤ 0 then 50 else if n > 1000 then 1000 else n
          | _ => 50
    | none => False
  have hcontent :
      (yo_parse_response (mkToolUse "scrollback" id (some (.jobj input)))).content =
      some (match cGetObjectItem (.jobj input) "lines" with
            | some (.jnum n) => snprintfD n
            | _ => "50") := by
    rfl
  rw [hcontent]
  cases hl : cGetObjectItem (.jobj input) "lines" with
  | none =>
    simp only [hl]
    decide
  | some v =>
    cases v with
    | jnum n =>
      simp only [hl, yo_effective_lines, atoi_snprintfD]
    | jstr s => simp only [hl]; decide
    | jtrue => simp only [hl]; decide
    | jfalse => simp only [hl]; decide
    | jnull => simp only [hl]; decide
    | jobj f => simp only [hl]; decide
    | jarr a => simp only [hl]; decide

/-- C10 (counterexample): a `command` tool-use whose input has an
`explanation` and `pending:true` but no `command` field fails to parse —
yet the `explanation` output is left set to the input's explanation and the
`pending` output is left true, so not all output fields are null. -/
theorem C10_counterexample :
    (yo_parse_response (.jobj [("name", .jstr "command"), ("id", .jstr "x"),
        ("input", .jobj [("explanation", .jstr "hi"), ("pending", .jtrue)])])).ok
        = false ∧
      (yo_parse_response (.jobj [("name", .jstr "command"), ("id", .jstr "x"),
        ("input", .jobj [("explanation", .jstr "hi"), ("pending", .jtrue)])])).explanation
        = some "hi" ∧
      (yo_parse_response (.jobj [("name", .jstr "command"), ("id", .jstr "x"),
        ("input", .jobj [("explanation", .jstr "hi"), ("pending", .jtrue)])])).pending
        = true := by
  refine ⟨rfl, rfl, rfl⟩

/-- C10 (amended): with the `input` object absent the parse succeeds
exactly when the tool name is `docs` (with empty content), and a failed
no-input parse leaves every output null; a `command` (resp. `chat`) input
lacking its required string field makes the parse fail with the type,
content and tool-use-id outputs null — but the explanation and pending
outputs of a failed `command` parse keep whatever was extracted from the
input; a `scrollback` tool-use with an input object always parses. -/
theorem C10_amended :
    (∀ fields : List (String × JVal),
      cGetObjectItem (.jobj fields) "input" = none →
        ((yo_parse_response (.jobj fields)).ok = true ↔
          asString (cGetObjectItem (.jobj fields) "name") = some "docs") ∧
        ((yo_parse_response (.jobj fields)).ok = true →
          (yo_parse_response (.jobj fields)).content = some "") ∧
        ((yo_parse_response (.jobj fields)).ok = false →
          (yo_parse_response (.jobj fields)).type = none ∧
          (yo_parse_response (.jobj fields)).content = none ∧
          (yo_parse_response (.jobj fields)).explanation = none ∧
          (yo_parse_response (.jobj fields)).tool_use_id = none ∧
          (yo_parse_response (.jobj fields)).pending = false)) ∧
    (∀ (tu input : JVal),
      asString (cGetObjectItem tu "name") = some "command" →
      cGetObjectItem tu "input" = some input →
      asString (cGetObjectItem input "command") = none →
        (yo_parse_response tu).ok = false ∧
        (yo_parse_response tu).type = none ∧
        (yo_parse_response tu).content = none ∧
        (yo_parse_response tu).tool_use_id = none ∧
        (yo_parse_response tu).explanation =
          asString (cGetObjectItem input "explanation") ∧
        (yo_parse_response tu).pending =
          isTrueItem (cGetObjectItem input "pending")) ∧
    (∀ (tu input : JVal),
      asString (cGetObjectItem tu "name") = some "chat" →
      cGetObjectItem tu "input" = some input →
      asString (cGetObjectItem input "response") = none →
        (yo_parse_response tu).ok = false ∧
        (yo_parse_response tu).type = none ∧
        (yo_parse_response tu).content = none ∧
        (yo_parse_response tu).tool_use_id = none ∧
        (yo_parse_response tu).explanation = none ∧
        (yo_parse_response tu).pending = false) ∧
    (∀ (tu input : JVal),
      asString (cGetObjectItem tu "name") = some "scrollback" →
      cGetObjectItem tu "input" = some input →
        (yo_parse_response tu).ok = true) := by
  refine ⟨?_, ?_, ?_, ?_⟩
  · intro fields hinput
    unfold yo_parse_response
    rw [hinput]
    cases hname : asString (cGetObjectItem (.jobj fields) "name") with
    | none => simp
    | some name =>
      by_cases hdocs : name = "docs"
      · subst hdocs
        simp
      · simp [hdocs]
  · intro tu input hname hinput hcmd
    unfold yo_parse_response
    rw [hname, hinput]
    simp only [if_pos rfl, hcmd]
    exact ⟨rfl, rfl, rfl, rfl, rfl, rfl⟩
  · intro tu input hname hinput hresp
    unfold yo_parse_response
    rw [hname, hinput]
    have h1 : ¬ ("chat" : String) = "command" := by decide
    simp only [if_neg h1, if_pos rfl, hresp]
    exact ⟨rfl, rfl, rfl, rfl, rfl, rfl⟩
  · intro tu input hname hinput
    unfold yo_parse_response
    rw [hname, hinput]
    have h1 : ¬ ("scrollback" : String) = "command" := by decide
    have h2 : ¬ ("scrollback" : String) = "chat" := by decide
    simp only [if_neg h1, if_neg h2, if_pos rfl]
    simp

/-- C10 (witness): the amended theorem applied to a concrete `docs`
tool-use with no input, whose parse succeeds. -/
theorem C10_amended_witness :
    (yo_parse_response (.jobj [("name", .jstr "docs"), ("id", .jstr "d1")])).ok
      = true :=
  ((C10_amended.1 [("name", .jstr "docs"), ("id", .jstr "d1")] rfl).1).mpr rfl

/-! ## API key loading (yo_load_api_key) -/

/-- The on-disk credential file: `st_mode` and the byte content.
`none` models a missing file (`stat` fails). -/
def KeyFile := Option (Nat × List Char)

/-- `fgets(buf, n+1, fp)` on a file whose remaining content is `content`:
read at most `n` characters, stopping after a newline.  Returns `[]`
exactly when `fgets` returns NULL (no characters before EOF). -/
def cFgets : Nat → List Char → List Char
  | 0, _ => []
  | _, [] => []
  | n + 1, c :: rest => if c = '\n' then [c] else c :: cFgets n rest

/-- The trailing-whitespace trim of `yo_load_api_key`: strip `\n`, `\r`,
space and tab from the end. -/
def trimTrail (l : List Char) : List Char :=
  (l.reverse.dropWhile fun c => c = '\n' || c = '\r' || c = ' ' || c = '\t').reverse

/-- The leading-whitespace trim of `yo_load_api_key`: strip space and tab
(only) from the front. -/
def trimLead (l : List Char) : List Char :=
  l.dropWhile fun c => c = ' ' || c = '\t'

/-- The key produced from the file content: first line (at most 255
bytes), trailing `\n\r \t` stripped, leading spaces/tabs stripped. -/
def yo_trimmed_first_line (content : List Char) : List Char :=
  trimLead (trimTrail (cFgets 255 content))

/-- One octal digit. -/
def octDigit (n : Nat) : Char := Char.ofNat (48 + n % 8)

/-- `%04o` of a value < 0o10000 (permission bits are < 0o1000). -/
def octal4 (m : Nat) : List Char :=
  [octDigit (m / 512), octDigit (m / 64), octDigit (m / 8), octDigit m]

/-- The diagnostics `yo_load_api_key` can print. -/
def diagMissingKey : List Char := "Create ~/.yoshkey with your Anthropic API key (mode 0600)".data

/-- Diagnostic for a wrong-permission credential file, naming the current
permission bits in octal (`%04o`). -/
def diagBadMode (m : Nat) : List Char :=
  "~/.yoshkey must have mode 0600 (current: ".data ++ octal4 m ++ ")".data

/-- Diagnostic for an empty (or whitespace-only first line) credential
file. -/
def diagEmptyKey : List Char := "~/.yoshkey is empty".data

/-- `yo_load_api_key`: stat the file, require permission bits exactly 0600,
read the first line, trim it, and require the result non-empty.
Returns the key or the printed diagnostic. -/
def yo_load_api_key : KeyFile → Except (List Char) (List Char)
  | none => .error diagMissingKey
  | some (mode, content) =>
    if (mode &&& 0o777) ≠ 0o600 then .error (diagBadMode (mode &&& 0o777))
    else
      let line := cFgets 255 content
      if line = [] then .error diagEmptyKey
      else
        let key := trimLead (trimTrail line)
        if key = [] then .error diagEmptyKey
        else .ok key

/-- C7 (counterexample): a mode-0600 file whose first line is
`"\rX\n"` loads successfully but the returned key is `"\rX"` — the
leading carriage return, a whitespace character, is *not* stripped
(the code only strips leading spaces and tabs), contradicting the claim
that the key is the first line stripped of leading and trailing
whitespace. -/
theorem C7_counterexample :
    yo_load_api_key (some (0o600, ['\r', 'X', '\n'])) = .ok ['\r', 'X'] ∧
      ('\r').isWhitespace = true := by
  refine ⟨rfl, rfl⟩

/-- C7 (amended): loading succeeds and returns the first line (truncated to
255 bytes) of the file with trailing `\n`/`\r`/space/tab and leading
space/tab characters removed, if and only if the file exists, its
permission bits are exactly 0600, and that trimmed line is non-empty.  Any
other permission bits are rejected with a diagnostic naming the current
bits in `%04o` octal; a missing file and an empty trimmed line each get
their own distinct diagnostic. -/
theorem C7_amended (mode : Nat) (content : List Char) :
    (yo_load_api_key none = .error diagMissingKey) ∧
    ((mode &&& 0o777) ≠ 0o600 →
      yo_load_api_key (some (mode, content)) =
        .error (diagBadMode (mode &&& 0o777))) ∧
    ((mode &&& 0o777) = 0o600 →
      (yo_load_api_key (some (mode, content)) =
          .ok (yo_trimmed_first_line content) ↔
        yo_trimmed_first_line content ≠ [])) ∧
    ((mode &&& 0o777) = 0o600 → yo_trimmed_first_line content = [] →
      yo_load_api_key (some (mode, content)) = .error diagEmptyKey) ∧
    diagMissingKey ≠ diagEmptyKey := by
  refine ⟨rfl, ?_, ?_, ?_, by decide⟩
  · intro hmode
    simp only [yo_load_api_key]
    rw [if_pos hmode]
  · intro hmode
    simp only [yo_load_api_key]
    rw [if_neg (by omega : ¬ (mode &&& 0o777) ≠ 0o600)]
    by_cases hline : cFgets 255 content = []
    · rw [if_pos hline]
      constructor
      · intro h; exact absurd h (by simp)
      · intro h
        exfalso
        apply h
        unfold yo_trimmed_first_line
        rw [hline]
        rfl
    · rw [if_neg hline]
      by_cases hkey : trimLead (trimTrail (cFgets 255 content)) = []
      · rw [if_pos hkey]
        constructor
        · intro h; exact absurd h (by simp)
        · intro h
          exact absurd hkey h
      · rw [if_neg hkey]
        constructor
        · intro _; exact hkey
        · intro _; rfl
  · intro hmode hkey
    simp only [yo_load_api_key]
    rw [if_neg (by omega : ¬ (mode &&& 0o777) ≠ 0o600)]
    unfold yo_trimmed_first_line at hkey
    by_cases hline : cFgets 255 content = []
    · rw [if_pos hline]
    · rw [if_neg hline, if_pos hkey]

/-- C7 (witness): the amended theorem applied at mode 0600 and content
`"k\n"`, which loads the key `"k"`; and at mode 0644, which is rejected
with the diagnostic naming 0644. -/
theorem C7_amended_witness :
    yo_load_api_key (some (0o600, ['k', '\n'])) = .ok ['k'] ∧
      yo_load_api_key (some (0o644, ['k', '\n'])) =
        .error (diagBadMode 0o644) := by
  constructor
  · have h := ((C7_amended 0o600 ['k', '\n']).2.2.1 (by decide)).mpr (by decide)
    simpa using h
  · have h := (C7_amended 0o644 ['k', '\n']).2.1 (by decide)
    simpa using h

/-! ## Tool-call transport normalization
(yo_call_claude_with_messages_internal, lines 2124-2218) -/

/-- The result of the content-array scan loop: number of `tool_use` blocks,
the first `tool_use` block, and the first `text` block. -/
structure ScanOut where
  toolUseCount : Nat
  firstToolUse : Option JVal
  firstText : Option JVal
  deriving Repr

/-- The scan loop over the response `content` array: items without a string
`type` are skipped; `tool_use` blocks are counted and the first one
remembered; the first `text` block is remembered. -/
def scanContent : List JVal → ScanOut
  | [] => ⟨0, none, none⟩
  | item :: rest =>
    let s := scanContent rest
    match asString (cGetObjectItem item "type") with
    | some t =>
      if t = "tool_use" then ⟨s.toolUseCount + 1, some item, s.firstText⟩
      else if t = "text" then ⟨s.toolUseCount, s.firstToolUse, some item⟩
      else s
    | none => s

/-- The synthetic `chat` tool-use built when the response has no tool-use
block: id is the fixed sentinel, and the response text comes from the first
text block (or `"(empty response)"`). -/
def syntheticChat (items : List JVal) : JVal :=
  let textContent : Option String :=
    match (scanContent items).firstText with
    | some tb => asString (cGetObjectItem tb "text")
    | none => none
  .jobj [("type", .jstr "tool_use"), ("id", .jstr "synthetic_text_response"),
         ("name", .jstr "chat"),
         ("input", .jobj [("response",
           .jstr (match textContent with
                  | some t => t
                  | none => "(empty response)"))])]

/-- Outcome of one pass over a response's content array. -/
inductive PickResult where
  | ret (v : JVal)
  | needRetry
  deriving Repr

/-- The normalization cases of the transport: zero tool-uses synthesize a
`chat`; exactly one is returned; several are returned as the first one when
this is already the retry, and otherwise trigger the single retry.
(`getD .jnull` is unreachable: a nonzero count guarantees a first
tool-use.) -/
def yo_pick_tool_use (items : List JVal) (is_retry : Bool) : PickResult :=
  let s := scanContent items
  if s.toolUseCount = 0 then .ret (syntheticChat items)
  else if s.toolUseCount = 1 then .ret (s.firstToolUse.getD .jnull)
  else if is_retry then .ret (s.firstToolUse.getD .jnull)
  else .needRetry

/-- The transport result: the returned tool-use (or `none` on failure) and
how many forced-single-tool retry requests were issued. -/
structure TransportOut where
  result : Option JVal
  retries : Nat
  deriving Repr

/-- `yo_call_claude_with_messages_internal` from the point where the
content array is in hand: `items` is the first response's content array and
`retryResp` the content array of the retry response (`none` if the retry
request itself fails at the HTTP/parse level). -/
def yo_transport (items : List JVal) (retryResp : Option (List JVal)) :
    TransportOut :=
  match yo_pick_tool_use items false with
  | .ret v => ⟨some v, 0⟩
  | .needRetry =>
    match retryResp with
    | none => ⟨none, 1⟩
    | some items2 =>
      match yo_pick_tool_use items2 true with
      | .ret v => ⟨some v, 1⟩
      | .needRetry => ⟨none, 1⟩

theorem scanContent_first_some (items : List JVal) :
    (scanContent items).toolUseCount ≠ 0 →
      ∃ v, (scanContent items).firstToolUse = some v := by
  induction items with
  | nil => intro h; exact absurd rfl h
  | cons item rest ih =>
    intro h
    rw [scanContent] at h ⊢
    revert h
    cases htype : asString (cGetObjectItem item "type") with
    | none => exact ih
    | some t =>
      simp only
      by_cases h1 : t = "tool_use"
      · rw [if_pos h1]
        intro _
        exact ⟨item, rfl⟩
      · rw [if_neg h1]
        by_cases h2 : t = "text"
        · rw [if_pos h2]
          exact ih
        · rw [if_neg h2]
          exact ih

/-- A `tool_use` content block as it appears in the response array. -/
def tuBlock (name id : String) (input : JVal) : JVal :=
  .jobj [("type", .jstr "tool_use"), ("id", .jstr id), ("name", .jstr name),
         ("input", input)]

/-- A `text` content block. -/
def textBlock (t : String) : JVal :=
  .jobj [("type", .jstr "text"), ("text", .jstr t)]

/-- C4 (counterexample): a response with two tool-use blocks (k = 2)
triggers the retry, but when the retry response contains no tool-use block
at all the transport does not return "its first tool-use" — there is none
(`firstToolUse = none`); it returns the synthetic sentinel `chat` built
from the retry's text block instead. -/
theorem C4_counterexample :
    (scanContent [tuBlock "chat" "a" (.jobj [("response", .jstr "x")]),
        tuBlock "chat" "b" (.jobj [("response", .jstr "y")])]).toolUseCount = 2 ∧
    (scanContent [textBlock "hi"]).toolUseCount = 0 ∧
    (scanContent [textBlock "hi"]).firstToolUse = none ∧
    (yo_transport [tuBlock "chat" "a" (.jobj [("response", .jstr "x")]),
        tuBlock "chat" "b" (.jobj [("response", .jstr "y")])]
      (some [textBlock "hi"])).result = some (syntheticChat [textBlock "hi"]) ∧
    cGetObjectItem (syntheticChat [textBlock "hi"]) "id" =
      some (.jstr "synthetic_text_response") := by
  refine ⟨rfl, rfl, rfl, rfl, rfl⟩

/-- C4 (amended): with k tool-use blocks the transport returns the single
tool-use iff k = 1, the synthetic sentinel `chat` iff k = 0 — in both cases
without a retry — and for k > 1 issues exactly one retry whose response is
normalized with the same zero/nonzero rule but no further retry: its first
tool-use if it has any, else the synthetic `chat`. -/
theorem C4_amended (items : List JVal) (retryResp : Option (List JVal)) :
    ((scanContent items).toolUseCount = 0 →
      yo_transport items retryResp = ⟨some (syntheticChat items), 0⟩) ∧
    ((scanContent items).toolUseCount = 1 →
      ∃ v, (scanContent items).firstToolUse = some v ∧
        yo_transport items retryResp = ⟨some v, 0⟩) ∧
    (1 < (scanContent items).toolUseCount →
      (yo_transport items retryResp).retries = 1 ∧
      (match retryResp with
       | none => (yo_transport items retryResp).result = none
       | some items2 =>
         ((scanContent items2).toolUseCount = 0 →
           (yo_transport items retryResp).result =
             some (syntheticChat items2)) ∧
         ((scanContent items2).toolUseCount ≠ 0 →
           ∃ v, (scanContent items2).firstToolUse = some v ∧
             (yo_transport items retryResp).result = some v))) ∧
    cGetObjectItem (syntheticChat items) "id" =
      some (.jstr "synthetic_text_response") := by
  refine ⟨?_, ?_, ?_, rfl⟩
  · intro h0
    unfold yo_transport yo_pick_tool_use
    rw [if_pos h0]
  · intro h1
    obtain ⟨v, hv⟩ := scanContent_first_some items (by omega)
    refine ⟨v, hv, ?_⟩
    unfold yo_transport yo_pick_tool_use
    rw [if_neg (by omega), if_pos h1, hv]
    rfl
  · intro hgt
    have hpick : yo_pick_tool_use items false = .needRetry := by
      unfold yo_pick_tool_use
      rw [if_neg (by omega), if_neg (by omega), if_neg (by simp)]
    constructor
    · unfold yo_transport
      rw [hpick]
      cases retryResp with
      | none => rfl
      | some items2 =>
        simp only
        cases yo_pick_tool_use items2 true <;> rfl
    · cases retryResp with
      | none =>
        unfold yo_transport
        rw [hpick]
      | some items2 =>
        simp only
        constructor
        · intro h0
          unfold yo_transport
          rw [hpick]
          simp only
          unfold yo_pick_tool_use
          rw [if_pos h0]
        · intro hne
          obtain ⟨v, hv⟩ := scanContent_first_some items2 hne
          refine ⟨v, hv, ?_⟩
          unfold yo_transport
          rw [hpick]
          simp only
          unfold yo_pick_tool_use
          rw [if_neg hne]
          by_cases h1 : (scanContent items2).toolUseCount = 1
          · rw [if_pos h1, hv]
            rfl
          · rw [if_neg h1, if_pos rfl, hv]
            rfl

/-- C4 (witness): the amended theorem applied to a one-tool-use response:
the single tool-use is returned without a retry. -/
theorem C4_amended_witness :
    ∃ v, (scanContent [tuBlock "chat" "a" (.jobj [("response", .jstr "x")])]).firstToolUse
        = some v ∧
      yo_transport [tuBlock "chat" "a" (.jobj [("response", .jstr "x")])] none =
        ⟨some v, 0⟩ :=
  (C4_amended [tuBlock "chat" "a" (.jobj [("response", .jstr "x")])] none).2.1
    (by decide)

/-! ## The assistant control loop: sub-request loop, explanation repair,
accept-line turn and continuation turn -/

/-- The in-place quintuple `type/content/explanation/tool_use_id/pending`
threaded through the control loop after a successful parse. -/
structure PTU where
  type : String
  content : String
  explanation : Option String
  tool_use_id : Option String
  pending : Bool
  deriving Repr, DecidableEq

/-- A successful `yo_parse_response` always produces a type and content;
package the five outputs, or `none` on parse failure. -/
def parsePTU (tu : JVal) : Option PTU :=
  let p := yo_parse_response tu
  match p.ok, p.type, p.content with
  | true, some t, some c => some ⟨t, c, p.explanation, p.tool_use_id, p.pending⟩
  | _, _, _ => none

/-- One result of `yo_call_claude*`: a tool-use object, a failure
(transport/HTTP/parse error, NULL returned with `yo_cancelled` clear), or a
user cancellation (NULL returned with `yo_cancelled` set). -/
inductive ApiResult where
  | ok (tu : JVal)
  | err
  | cancelled
  deriving Repr

/-- Draw the next transport result from the oracle (an exhausted oracle
behaves as a transport error). -/
def nextApi : List ApiResult → ApiResult × List ApiResult
  | [] => (.err, [])
  | r :: rest => (r, rest)

/-- Output of the sub-request loop `yo_handle_requests`: the final
tool-use/quintuple (`none` when an inner call or parse failed, error
already printed), the remaining oracle, the number of follow-up requests
issued, and the `lines` counts passed to `rl_yo_get_scrollback`. -/
structure ReqLoopOut where
  res : Option (JVal × PTU)
  rest : List ApiResult
  followups : Nat
  fetches : List Int
  deriving Repr

/-- `yo_handle_requests`: while the tool is `scrollback` or `docs` and
turns remain, satisfy the sub-request and re-ask; at most `maxTurns`
iterations.  A `scrollback` iteration clamps the stored lines count and
fetches that much scrollback before the follow-up call. -/
def yo_handle_requests_loop : JVal → PTU → List ApiResult → Nat → ReqLoopOut
  | tu, ptu, oracle, 0 => ⟨some (tu, ptu), oracle, 0, []⟩
  | tu, ptu, oracle, maxTurns + 1 =>
    if ptu.type = "scrollback" then
      match nextApi oracle with
      | (.ok tu2, rest) =>
        match parsePTU tu2 with
        | some ptu2 =>
          let out := yo_handle_requests_loop tu2 ptu2 rest maxTurns
          ⟨out.res, out.rest, out.followups + 1,
            yo_effective_lines ptu.content :: out.fetches⟩
        | none => ⟨none, rest, 1, [yo_effective_lines ptu.content]⟩
      | (_, rest) => ⟨none, rest, 1, [yo_effective_lines ptu.content]⟩
    else if ptu.type = "docs" then
      match nextApi oracle with
      | (.ok tu2, rest) =>
        match parsePTU tu2 with
        | some ptu2 =>
          let out := yo_handle_requests_loop tu2 ptu2 rest maxTurns
          ⟨out.res, out.rest, out.followups + 1, out.fetches⟩
        | none => ⟨none, rest, 1, []⟩
      | (_, rest) => ⟨none, rest, 1, []⟩
    else ⟨some (tu, ptu), oracle, 0, []⟩

/-- `(*explanation == NULL || **explanation == 0)`. -/
def explanationEmpty (p : PTU) : Bool :=
  match p.explanation with
  | none => true
  | some e => e = ""

/-- Output of `yo_handle_explanation_retry`: the (possibly replaced)
tool-use/quintuple, `none` when the user cancelled during the retry;
remaining oracle; number of repair requests issued. -/
structure RetryOut where
  res : Option (JVal × PTU)
  rest : List ApiResult
  requests : Nat
  deriving Repr

/-- `yo_handle_explanation_retry`: for a `command` with missing or empty
explanation, issue one repair request (provided the original tool-use
carries a string id, which `yo_retry_for_explanation` requires); the new
response replaces the original iff it parses as a `command` with non-empty
explanation; a NULL retry with `yo_cancelled` set aborts the turn. -/
def yo_handle_explanation_retry (tu : JVal) (ptu : PTU)
    (oracle : List ApiResult) : RetryOut :=
  if ptu.type = "command" ∧ explanationEmpty ptu then
    match asString (cGetObjectItem tu "id") with
    | none => ⟨some (tu, ptu), oracle, 0⟩
    | some _ =>
      match nextApi oracle with
      | (.cancelled, rest) => ⟨none, rest, 1⟩
      | (.err, rest) => ⟨some (tu, ptu), rest, 1⟩
      | (.ok rtu, rest) =>
        match parsePTU rtu with
        | some rptu =>
          if rptu.type = "command" ∧ ¬ explanationEmpty rptu then
            ⟨some (rtu, rptu), rest, 1⟩
          else ⟨some (tu, ptu), rest, 1⟩
        | none => ⟨some (tu, ptu), rest, 1⟩
  else ⟨some (tu, ptu), oracle, 0⟩

/-- The session state of the shell process that the two turn handlers
read and write. -/
structure SessionState where
  hist : List Exchange
  lastWasCommand : Bool
  contActive : Bool
  lastExec : Option String
  hookInstalled : Bool
  deriving Repr

/-- How a turn ended.  `errTooManyScrollback` prints
"Too many scrollback requests"; `errUnknownType` prints
"Unknown response type from Claude"; `contSilentDrop` is the continuation
hook's silent handling of the same two situations (it prints nothing);
the other error outcomes print their own diagnostics. -/
inductive Outcome where
  | notYo
  | reset
  | errKey
  | errTransport
  | errParse
  | errSubRequest
  | errRetryCancelled
  | cmdDispatch
  | chatDispatch
  | errTooManyScrollback
  | errUnknownType
  | contInactive
  | contSilentDrop
  deriving Repr, DecidableEq

/-- Everything observable about one turn: the final session state, the
outcome, the number of sub-request follow-ups, the number of explanation
repair requests, and the tool-use/quintuple as it stood right after the
sub-request loop (`none` if the turn failed earlier). -/
structure TurnOut where
  state : SessionState
  outcome : Outcome
  followups : Nat
  repairs : Nat
  afterLoop : Option (JVal × PTU)
  deriving Repr

/-- `strncmp(line, "yo ", 3) == 0`. -/
def startsWithYo (s : String) : Bool :=
  s.data.take 3 == ['y', 'o', ' ']

/-- `yo_history[yo_history_count - 1].executed = 1`. -/
def markLastExecuted (hist : List Exchange) : List Exchange :=
  match hist.getLast? with
  | none => hist
  | some e => hist.dropLast ++ [{ e with executed := true }]

/-- The executed-tracking prologue of `rl_yo_accept_line` (runs only when
the previous yo response was a command). -/
def yo_track_executed (s : SessionState) (line : String) : SessionState :=
  if s.lastWasCommand then
    if ¬ startsWithYo line then
      let s2 := { s with hist := markLastExecuted s.hist }
      if s.contActive ∧ line ≠ "" then
        { s2 with lastExec := some line, hookInstalled := true,
                  lastWasCommand := false }
      else
        { s2 with contActive := false, lastWasCommand := false }
    else
      { s with contActive := false, lastWasCommand := false }
  else s

/-- `rl_yo_accept_line`: executed tracking, the `yo ` prefix test, the
`yo reset` shortcut, credential loading, the initial request, the
sub-request loop (3 turns), the pending-guarded explanation repair, and
dispatch.  The editor-display actions are not modelled; `keyOk` abstracts
`yo_load_api_key` succeeding as the oracle abstracts the transport. -/
def rl_yo_accept_line (limit budget : Nat) (s : SessionState) (line : String)
    (keyOk : Bool) (oracle : List ApiResult) : TurnOut :=
  let s1 := yo_track_executed s line
  if ¬ startsWithYo line then ⟨s1, .notYo, 0, 0, none⟩
  else if line = "yo reset" then
    ⟨{ s1 with hist := [], contActive := false, lastWasCommand := false },
      .reset, 0, 0, none⟩
  else if ¬ keyOk then ⟨s1, .errKey, 0, 0, none⟩
  else
    match nextApi oracle with
    | (.err, _) => ⟨s1, .errTransport, 0, 0, none⟩
    | (.cancelled, _) => ⟨s1, .errTransport, 0, 0, none⟩
    | (.ok tu0, rest0) =>
      match parsePTU tu0 with
      | none => ⟨s1, .errParse, 0, 0, none⟩
      | some ptu0 =>
        match yo_handle_requests_loop tu0 ptu0 rest0 3 with
        | ⟨none, _, fu, _⟩ => ⟨s1, .errSubRequest, fu, 0, none⟩
        | ⟨some (tu, ptu), restL, fu, _⟩ =>
          match (if ptu.pending then yo_handle_explanation_retry tu ptu restL
                 else ⟨some (tu, ptu), restL, 0⟩ : RetryOut) with
          | ⟨none, _, reqs⟩ =>
            ⟨s1, .errRetryCancelled, fu, reqs, some (tu, ptu)⟩
          | ⟨some (_, ptu2), _, reqs⟩ =>
            if ptu2.type = "command" then
              ⟨{ s1 with
                  hist := yo_history_add limit budget s1.hist
                    ⟨line, ptu2.type, ptu2.content, ptu2.tool_use_id, false,
                      ptu2.pending⟩,
                  lastWasCommand := true,
                  contActive := ptu2.pending },
                .cmdDispatch, fu, reqs, some (tu, ptu)⟩
            else if ptu2.type = "chat" then
              ⟨{ s1 with
                  hist := yo_history_add limit budget s1.hist
                    ⟨line, ptu2.type, ptu2.content, ptu2.tool_use_id, true,
                      false⟩,
                  contActive := false },
                .chatDispatch, fu, reqs, some (tu, ptu)⟩
            else if ptu2.type = "scrollback" then
              ⟨s1, .errTooManyScrollback, fu, reqs, some (tu, ptu)⟩
            else
              ⟨s1, .errUnknownType, fu, reqs, some (tu, ptu)⟩

/-- The synthetic `[continuation]` query: scrollback text (falling back to
`"(no output)"`), the last suggestion, and the actually-executed line when
it differs. -/
def yo_cont_query (s : SessionState) (scrollbackText : String) : String :=
  let sb := if scrollbackText = "" then "(no output)" else scrollbackText
  let suggested : Option String := (s.hist.getLast?).map (·.response)
  let edited : Bool :=
    match suggested, s.lastExec with
    | some sg, some ex => sg ≠ ex
    | _, _ => false
  if edited then
    "[continuation] You suggested: " ++ suggested.getD "" ++
      "\nThe user edited and executed: " ++ s.lastExec.getD "" ++
      "\nHere is the terminal output:\n```\n" ++ sb ++ "\n```"
  else
    "[continuation] The user executed the previous command. " ++
      "Here is the terminal output:\n```\n" ++ sb ++ "\n```"

/-- `yo_continuation_hook`: one-shot uninstall, active check, credential
loading, the synthetic `[continuation]` query, the same request pipeline
as accept-line but with the explanation repair unguarded, and a silent
drop of non-command/chat outcomes.  `scrollbackText` abstracts
`rl_yo_get_scrollback(200)`.  The hook clears `yo_last_executed_command`
once the query has been built. -/
def yo_continuation_hook (limit budget : Nat) (s : SessionState)
    (keyOk : Bool) (scrollbackText : String) (oracle : List ApiResult) :
    TurnOut :=
  if ¬ s.contActive then
    ⟨{ s with hookInstalled := false }, .contInactive, 0, 0, none⟩
  else if ¬ keyOk then
    ⟨{ s with hookInstalled := false, contActive := false }, .errKey, 0, 0,
      none⟩
  else
    match nextApi oracle with
    | (.err, _) =>
      ⟨{ s with hookInstalled := false, lastExec := none, contActive := false },
        .errTransport, 0, 0, none⟩
    | (.cancelled, _) =>
      ⟨{ s with hookInstalled := false, lastExec := none, contActive := false },
        .errTransport, 0, 0, none⟩
    | (.ok tu0, rest0) =>
      match parsePTU tu0 with
      | none =>
        ⟨{ s with hookInstalled := false, lastExec := none, contActive := false },
          .errParse, 0, 0, none⟩
      | some ptu0 =>
        match yo_handle_requests_loop tu0 ptu0 rest0 3 with
        | ⟨none, _, fu, _⟩ =>
          ⟨{ s with hookInstalled := false, lastExec := none, contActive := false },
            .errSubRequest, fu, 0, none⟩
        | ⟨some (tu, ptu), restL, fu, _⟩ =>
          match yo_handle_explanation_retry tu ptu restL with
          | ⟨none, _, reqs⟩ =>
            ⟨{ s with hookInstalled := false, lastExec := none, contActive := false },
              .errRetryCancelled, fu, reqs, some (tu, ptu)⟩
          | ⟨some (_, ptu2), _, reqs⟩ =>
            if ptu2.type = "command" then
              ⟨{ s with
                  hookInstalled := false, lastExec := none,
                  hist := yo_history_add limit budget s.hist
                    ⟨yo_cont_query s scrollbackText, ptu2.type, ptu2.content,
                      ptu2.tool_use_id, false, ptu2.pending⟩,
                  lastWasCommand := true,
                  contActive := ptu2.pending },
                .cmdDispatch, fu, reqs, some (tu, ptu)⟩
            else if ptu2.type = "chat" then
              ⟨{ s with
                  hookInstalled := false, lastExec := none,
                  hist := yo_history_add limit budget s.hist
                    ⟨yo_cont_query s scrollbackText, ptu2.type, ptu2.content,
                      ptu2.tool_use_id, true, false⟩,
                  contActive := false },
                .chatDispatch, fu, reqs, some (tu, ptu)⟩
            else
              ⟨{ s with hookInstalled := false, lastExec := none, contActive := false },
                .contSilentDrop, fu, reqs, some (tu, ptu)⟩

/-! Helper lemmas about the turn pipeline. -/

theorem markLastExecuted_length (hist : List Exchange) :
    (markLastExecuted hist).length = hist.length := by
  unfold markLastExecuted
  cases h : hist.getLast? with
  | none => rfl
  | some e =>
    have hne : hist ≠ [] := by
      intro hnil
      rw [hnil] at h
      simp at h
    simp only [List.length_append, List.length_dropLast, List.length_cons,
      List.length_nil]
    have : 1 ≤ hist.length := by
      cases hist with
      | nil => exact absurd rfl hne
      | cons _ _ => simp
    omega

theorem yo_track_executed_hist_length (s : SessionState) (line : String) :
    (yo_track_executed s line).hist.length = s.hist.length := by
  unfold yo_track_executed
  split
  · split
    · split
      · simp [markLastExecuted_length]
      · simp [markLastExecuted_length]
    · rfl
  · rfl

theorem yo_handle_requests_loop_followups_le :
    ∀ (n : Nat) (tu : JVal) (ptu : PTU) (oracle : List ApiResult),
      (yo_handle_requests_loop tu ptu oracle n).followups ≤ n := by
  intro n
  induction n with
  | zero => intro tu ptu oracle; rfl
  | succ n ih =>
    intro tu ptu oracle
    rw [yo_handle_requests_loop]
    split
    · split
      · split
        · exact Nat.succ_le_succ (ih _ _ _)
        · simp
      · simp
    · split
      · split
        · split
          · exact Nat.succ_le_succ (ih _ _ _)
          · simp
        · simp
      · simp

theorem yo_handle_explanation_retry_nonCommand (tu : JVal) (ptu : PTU)
    (oracle : List ApiResult) (h : ptu.type ≠ "command") :
    yo_handle_explanation_retry tu ptu oracle = ⟨some (tu, ptu), oracle, 0⟩ := by
  unfold yo_handle_explanation_retry
  rw [if_neg]
  intro hc
  exact h hc.1

theorem yo_handle_explanation_retry_requests (tu : JVal) (ptu : PTU)
    (oracle : List ApiResult) :
    (yo_handle_explanation_retry tu ptu oracle).requests =
      if ptu.type = "command" ∧ explanationEmpty ptu = true ∧
          (asString (cGetObjectItem tu "id")).isSome then 1 else 0 := by
  unfold yo_handle_explanation_retry
  split
  · next hguard =>
    cases hid : asString (cGetObjectItem tu "id") with
    | none => simp [hguard.1, hguard.2, hid]
    | some i =>
      simp only
      split
      · simp [hguard.1, hguard.2, hid]
      · simp [hguard.1, hguard.2, hid]
      · split <;> simp [hguard.1, hguard.2, hid] <;>
          split <;> simp [hguard.1, hguard.2, hid]
  · next hguard =>
    rw [if_neg]
    intro ⟨h1, h2, _⟩
    exact hguard ⟨h1, h2⟩

theorem yo_handle_explanation_retry_requests_le (tu : JVal) (ptu : PTU)
    (oracle : List ApiResult) :
    (yo_handle_explanation_retry tu ptu oracle).requests ≤ 1 := by
  rw [yo_handle_explanation_retry_requests]
  split <;> omega

/-- Error outcomes of §7: credential failure, transport error or
cancellation, parse failure, sub-request failure, explanation-retry
cancellation, too many sub-requests, unknown response type (in the
continuation hook the last two are the silent drop). -/
def isErrorOutcome : Outcome → Bool
  | .errKey => true
  | .errTransport => true
  | .errParse => true
  | .errSubRequest => true
  | .errRetryCancelled => true
  | .errTooManyScrollback => true
  | .errUnknownType => true
  | .contSilentDrop => true
  | _ => false

/-- C8: every turn (accept-line or continuation) that ends in one of the
error outcomes leaves the number of stored exchanges unchanged: no exchange
is added on a failed turn.  (The executed-flag prologue may rewrite the
last exchange in place but never changes the count.) -/
theorem C8_errors_preserve_history (limit budget : Nat) (s : SessionState)
    (line : String) (keyOk : Bool) (oracle : List ApiResult)
    (scrollbackText : String) :
    (isErrorOutcome (rl_yo_accept_line limit budget s line keyOk oracle).outcome
        = true →
      (rl_yo_accept_line limit budget s line keyOk oracle).state.hist.length =
        s.hist.length) ∧
    (isErrorOutcome (yo_continuation_hook limit budget s keyOk scrollbackText
        oracle).outcome = true →
      (yo_continuation_hook limit budget s keyOk scrollbackText
        oracle).state.hist.length = s.hist.length) := by
  constructor
  · unfold rl_yo_accept_line
    split
    · intro h; exact absurd h (by simp [isErrorOutcome])
    · split
      · intro h; exact absurd h (by simp [isErrorOutcome])
      · split
        · intro _; exact yo_track_executed_hist_length s line
        · split
          · intro _; exact yo_track_executed_hist_length s line
          · intro _; exact yo_track_executed_hist_length s line
          · split
            · intro _; exact yo_track_executed_hist_length s line
            · split
              · intro _; exact yo_track_executed_hist_length s line
              · split
                · intro _; exact yo_track_executed_hist_length s line
                · split
                  · intro h; exact absurd h (by simp [isErrorOutcome])
                  · split
                    · intro h; exact absurd h (by simp [isErrorOutcome])
                    · split
                      · intro _; exact yo_track_executed_hist_length s line
                      · intro _; exact yo_track_executed_hist_length s line
  · unfold yo_continuation_hook
    split
    · intro h; exact absurd h (by simp [isErrorOutcome])
    · split
      · intro _; rfl
      · split
        · intro _; rfl
        · intro _; rfl
        · split
          · intro _; rfl
          · split
            · intro _; rfl
            · split
              · intro _; rfl
              · split
                · intro h; exact absurd h (by simp [isErrorOutcome])
                · split
                  · intro h; exact absurd h (by simp [isErrorOutcome])
                  · intro _; rfl

/-- C8 (witness): a failed credential load on a yo line leaves the
(one-entry) history length unchanged. -/
theorem C8_errors_preserve_history_witness :
    isErrorOutcome (rl_yo_accept_line 50 10000
        ⟨[⟨"q", "chat", "r", none, true, false⟩], false, false, none, false⟩
        "yo x" false []).outcome = true ∧
      (rl_yo_accept_line 50 10000
        ⟨[⟨"q", "chat", "r", none, true, false⟩], false, false, none, false⟩
        "yo x" false []).state.hist.length = 1 :=
  ⟨by decide,
    (C8_errors_preserve_history 50 10000
      ⟨[⟨"q", "chat", "r", none, true, false⟩], false, false, none, false⟩
      "yo x" false [] "").1 (by decide)⟩

/-- Which repair count each accept-line turn produces, as a function of the
post-loop tool-use: the repair fires only for a pending command with
missing/empty explanation and a string id. -/
theorem rl_yo_accept_line_repairs_spec (limit budget : Nat) (s : SessionState)
    (line : String) (keyOk : Bool) (oracle : List ApiResult) :
    ((rl_yo_accept_line limit budget s line keyOk oracle).afterLoop = none ∧
      (rl_yo_accept_line limit budget s line keyOk oracle).repairs = 0) ∨
    (∃ tu ptu,
      (rl_yo_accept_line limit budget s line keyOk oracle).afterLoop =
        some (tu, ptu) ∧
      (rl_yo_accept_line limit budget s line keyOk oracle).repairs =
        if ptu.pending = true ∧ (ptu.type = "command" ∧
            explanationEmpty ptu = true ∧
            (asString (cGetObjectItem tu "id")).isSome = true) then 1
        else 0) := by
  unfold rl_yo_accept_line
  split
  · exact Or.inl ⟨rfl, rfl⟩
  · split
    · exact Or.inl ⟨rfl, rfl⟩
    · split
      · exact Or.inl ⟨rfl, rfl⟩
      · split
        · exact Or.inl ⟨rfl, rfl⟩
        · exact Or.inl ⟨rfl, rfl⟩
        · split
          · exact Or.inl ⟨rfl, rfl⟩
          · split
            · exact Or.inl ⟨rfl, rfl⟩
            · split
              · -- explanation retry cancelled by the user
                rename_i heq
                have hreq := congrArg RetryOut.requests heq
                split at hreq
                · rename_i hpend
                  rw [yo_handle_explanation_retry_requests] at hreq
                  refine Or.inr ⟨_, _, rfl, ?_⟩
                  simp only [hpend, eq_self_iff_true, true_and]
                  exact hreq.symm
                · rename_i hpend
                  refine Or.inr ⟨_, _, rfl, ?_⟩
                  simp only [hpend, false_and, if_false]
                  exact hreq.symm
              · -- explanation retry returned a quintuple: dispatch
                rename_i heq
                have hreq := congrArg RetryOut.requests heq
                split at hreq
                · rename_i hpend
                  rw [yo_handle_explanation_retry_requests] at hreq
                  split
                  · refine Or.inr ⟨_, _, rfl, ?_⟩
                    simp only [hpend, eq_self_iff_true, true_and]
                    exact hreq.symm
                  · split
                    · refine Or.inr ⟨_, _, rfl, ?_⟩
                      simp only [hpend, eq_self_iff_true, true_and]
                      exact hreq.symm
                    · split
                      · refine Or.inr ⟨_, _, rfl, ?_⟩
                        simp only [hpend, eq_self_iff_true, true_and]
                        exact hreq.symm
                      · refine Or.inr ⟨_, _, rfl, ?_⟩
                        simp only [hpend, eq_self_iff_true, true_and]
                        exact hreq.symm
                · rename_i hpend
                  split
                  · refine Or.inr ⟨_, _, rfl, ?_⟩
                    simp only [hpend, false_and, if_false]
                    exact hreq.symm
                  · split
                    · refine Or.inr ⟨_, _, rfl, ?_⟩
                      simp only [hpend, false_and, if_false]
                      exact hreq.symm
                    · split
                      · refine Or.inr ⟨_, _, rfl, ?_⟩
                        simp only [hpend, false_and, if_false]
                        exact hreq.symm
                      · refine Or.inr ⟨_, _, rfl, ?_⟩
                        simp only [hpend, false_and, if_false]
                        exact hreq.symm

/-- Which repair count each continuation turn produces: the repair fires
for any command with missing/empty explanation and a string id (no pending
guard on this path). -/
theorem yo_continuation_hook_repairs_spec (limit budget : Nat)
    (s : SessionState) (keyOk : Bool) (scrollbackText : String)
    (oracle : List ApiResult) :
    ((yo_continuation_hook limit budget s keyOk scrollbackText
        oracle).afterLoop = none ∧
      (yo_continuation_hook limit budget s keyOk scrollbackText
        oracle).repairs = 0) ∨
    (∃ tu ptu,
      (yo_continuation_hook limit budget s keyOk scrollbackText
        oracle).afterLoop = some (tu, ptu) ∧
      (yo_continuation_hook limit budget s keyOk scrollbackText
        oracle).repairs =
        if ptu.type = "command" ∧ explanationEmpty ptu = true ∧
            (asString (cGetObjectItem tu "id")).isSome = true then 1
        else 0) := by
  unfold yo_continuation_hook
  split
  · exact Or.inl ⟨rfl, rfl⟩
  · split
    · exact Or.inl ⟨rfl, rfl⟩
    · split
      · exact Or.inl ⟨rfl, rfl⟩
      · exact Or.inl ⟨rfl, rfl⟩
      · split
        · exact Or.inl ⟨rfl, rfl⟩
        · split
          · exact Or.inl ⟨rfl, rfl⟩
          · split
            · rename_i heq
              have hreq := congrArg RetryOut.requests heq
              rw [yo_handle_explanation_retry_requests] at hreq
              exact Or.inr ⟨_, _, rfl, hreq.symm⟩
            · rename_i heq
              have hreq := congrArg RetryOut.requests heq
              rw [yo_handle_explanation_retry_requests] at hreq
              split
              · exact Or.inr ⟨_, _, rfl, hreq.symm⟩
              · split
                · exact Or.inr ⟨_, _, rfl, hreq.symm⟩
                · exact Or.inr ⟨_, _, rfl, hreq.symm⟩


/-- C2 (counterexample): an accept-line turn whose response is a `command`
with the `explanation` field missing (and `pending` absent): the post-loop
tool-use is a command with no explanation carrying an id, yet zero repair
requests are issued and the command is dispatched as-is — the accept-line
path only attempts the repair when the command is marked pending
(`if (pending && !yo_handle_explanation_retry(...))` in
rl_yo_accept_line). -/
theorem C2_counterexample :
    (rl_yo_accept_line 50 10000 ⟨[], false, false, none, false⟩ "yo x" true
        [.ok (tuBlock "command" "t1" (.jobj [("command", .jstr "ls")]))]).afterLoop
      = some (tuBlock "command" "t1" (.jobj [("command", .jstr "ls")]),
          ⟨"command", "ls", none, some "t1", false⟩) ∧
    (rl_yo_accept_line 50 10000 ⟨[], false, false, none, false⟩ "yo x" true
        [.ok (tuBlock "command" "t1" (.jobj [("command", .jstr "ls")]))]).repairs
      = 0 ∧
    (rl_yo_accept_line 50 10000 ⟨[], false, false, none, false⟩ "yo x" true
        [.ok (tuBlock "command" "t1" (.jobj [("command", .jstr "ls")]))]).outcome
      = .cmdDispatch := by
  refine ⟨rfl, rfl, rfl⟩

/-- C2 (amended): a repair request happens at most once per turn, and
exactly when the post-loop tool-use is a `command` with missing or empty
explanation that carries a string id and — on the accept-line path only —
is marked pending (the continuation path repairs without the pending
guard); the repair's response replaces the original iff it parses as a
`command` with non-empty explanation, otherwise the original is kept. -/
theorem C2_amended (limit budget : Nat) (s : SessionState) (line : String)
    (keyOk : Bool) (oracle : List ApiResult) (scrollbackText : String) :
    (∀ tu p, (rl_yo_accept_line limit budget s line keyOk oracle).afterLoop
        = some (tu, p) →
      (rl_yo_accept_line limit budget s line keyOk oracle).repairs =
        if p.pending = true ∧ (p.type = "command" ∧
            explanationEmpty p = true ∧
            (asString (cGetObjectItem tu "id")).isSome = true) then 1
        else 0) ∧
    (∀ tu p, (yo_continuation_hook limit budget s keyOk scrollbackText
        oracle).afterLoop = some (tu, p) →
      (yo_continuation_hook limit budget s keyOk scrollbackText
        oracle).repairs =
        if p.type = "command" ∧ explanationEmpty p = true ∧
            (asString (cGetObjectItem tu "id")).isSome = true then 1
        else 0) ∧
    (∀ (tu : JVal) (p : PTU) (rtu : JVal) (rest : List ApiResult) (i : String),
      p.type = "command" → explanationEmpty p = true →
      asString (cGetObjectItem tu "id") = some i →
        yo_handle_explanation_retry tu p (.ok rtu :: rest) =
          ⟨some (match parsePTU rtu with
                 | some rp =>
                   if rp.type = "command" ∧ ¬ explanationEmpty rp = true then
                     (rtu, rp)
                   else (tu, p)
                 | none => (tu, p)), rest, 1⟩) ∧
    (rl_yo_accept_line limit budget s line keyOk oracle).repairs ≤ 1 ∧
    (yo_continuation_hook limit budget s keyOk scrollbackText oracle).repairs
      ≤ 1 := by
  refine ⟨?_, ?_, ?_, ?_, ?_⟩
  · intro tu p h
    rcases rl_yo_accept_line_repairs_spec limit budget s line keyOk oracle with
      ⟨hnone, _⟩ | ⟨tu2, ptu2, hal, hrep⟩
    · rw [hnone] at h
      exact absurd h (by simp)
    · rw [hal] at h
      simp only [Option.some.injEq, Prod.mk.injEq] at h
      obtain ⟨rfl, rfl⟩ := h
      exact hrep
  · intro tu p h
    rcases yo_continuation_hook_repairs_spec limit budget s keyOk
        scrollbackText oracle with ⟨hnone, _⟩ | ⟨tu2, ptu2, hal, hrep⟩
    · rw [hnone] at h
      exact absurd h (by simp)
    · rw [hal] at h
      simp only [Option.some.injEq, Prod.mk.injEq] at h
      obtain ⟨rfl, rfl⟩ := h
      exact hrep
  · intro tu p rtu rest i hcmd hemp hid
    unfold yo_handle_explanation_retry
    rw [if_pos ⟨hcmd, hemp⟩]
    simp only [hid]
    cases hp : parsePTU rtu with
    | none => simp only [nextApi, hp]
    | some rp =>
      simp only [nextApi, hp]
      by_cases hc : rp.type = "command" ∧ ¬ explanationEmpty rp = true
      · rw [if_pos hc, if_pos hc]
      · rw [if_neg hc, if_neg hc]
  · rcases rl_yo_accept_line_repairs_spec limit budget s line keyOk oracle with
      ⟨_, hrep⟩ | ⟨tu2, ptu2, _, hrep⟩
    · rw [hrep]
      exact Nat.zero_le 1
    · rw [hrep]
      split
      · exact le_refl 1
      · exact Nat.zero_le 1
  · rcases yo_continuation_hook_repairs_spec limit budget s keyOk
        scrollbackText oracle with ⟨_, hrep⟩ | ⟨tu2, ptu2, _, hrep⟩
    · rw [hrep]
      exact Nat.zero_le 1
    · rw [hrep]
      split
      · exact le_refl 1
      · exact Nat.zero_le 1

/-- C2 (witness): the amended theorem instantiated on a turn whose reply is
a pending command with missing explanation and id `"t1"`: exactly one
repair request is recorded. -/
theorem C2_amended_witness :
    (rl_yo_accept_line 50 10000 ⟨[], false, false, none, false⟩ "yo x" true
        [.ok (tuBlock "command" "t1"
          (.jobj [("command", .jstr "ls"), ("pending", .jtrue)])),
         .ok (tuBlock "command" "t2"
          (.jobj [("command", .jstr "ls"),
                  ("explanation", .jstr "Lists files.")]))]).repairs = 1 := by
  have h := ((C2_amended 50 10000 ⟨[], false, false, none, false⟩ "yo x" true
      [.ok (tuBlock "command" "t1"
        (.jobj [("command", .jstr "ls"), ("pending", .jtrue)])),
       .ok (tuBlock "command" "t2"
        (.jobj [("command", .jstr "ls"),
                ("explanation", .jstr "Lists files.")]))] "").1
    (tuBlock "command" "t1"
      (.jobj [("command", .jstr "ls"), ("pending", .jtrue)]))
    ⟨"command", "ls", none, some "t1", true⟩ rfl)
  rw [h]
  decide

/-- The accept-line retry step (`pending` guard plus
`yo_handle_explanation_retry`) never changes a non-`command` quintuple. -/
theorem accept_retry_step_nonCommand (tu : JVal) (ptu : PTU)
    (restL : List ApiResult) (h : ptu.type ≠ "command") :
    (if ptu.pending = true then yo_handle_explanation_retry tu ptu restL
     else ⟨some (tu, ptu), restL, 0⟩ : RetryOut) =
      ⟨some (tu, ptu), restL, 0⟩ := by
  split
  · exact yo_handle_explanation_retry_nonCommand tu ptu restL h
  · rfl

/-- Accept-line loop/outcome spec: the sub-request loop issues at most
three follow-ups, and when the post-loop tool is still a sub-request the
turn ends with "Too many scrollback requests" (for `scrollback`) or
"Unknown response type from Claude" (for `docs`) and the history is not
extended. -/
theorem rl_yo_accept_line_loop_spec (limit budget : Nat) (s : SessionState)
    (line : String) (keyOk : Bool) (oracle : List ApiResult) :
    (rl_yo_accept_line limit budget s line keyOk oracle).followups ≤ 3 ∧
    ((rl_yo_accept_line limit budget s line keyOk oracle).afterLoop = none ∨
     ∃ tu ptu, (rl_yo_accept_line limit budget s line keyOk
         oracle).afterLoop = some (tu, ptu) ∧
       ((ptu.type = "scrollback" →
          (rl_yo_accept_line limit budget s line keyOk oracle).outcome =
            .errTooManyScrollback ∧
          (rl_yo_accept_line limit budget s line keyOk
            oracle).state.hist = (yo_track_executed s line).hist) ∧
        (ptu.type = "docs" →
          (rl_yo_accept_line limit budget s line keyOk oracle).outcome =
            .errUnknownType ∧
          (rl_yo_accept_line limit budget s line keyOk
            oracle).state.hist = (yo_track_executed s line).hist))) := by
  unfold rl_yo_accept_line
  split
  · exact ⟨Nat.zero_le 3, Or.inl rfl⟩
  · split
    · exact ⟨Nat.zero_le 3, Or.inl rfl⟩
    · split
      · exact ⟨Nat.zero_le 3, Or.inl rfl⟩
      · split
        · exact ⟨Nat.zero_le 3, Or.inl rfl⟩
        · exact ⟨Nat.zero_le 3, Or.inl rfl⟩
        · split
          · exact ⟨Nat.zero_le 3, Or.inl rfl⟩
          · split
            · -- sub-request loop failed
              rename_i xr restr fu fetches heqL
              refine ⟨?_, Or.inl rfl⟩
              exact le_trans
                (le_of_eq (congrArg ReqLoopOut.followups heqL).symm)
                (yo_handle_requests_loop_followups_le 3 _ _ _)
            · split
              · -- retry cancelled
                rename_i tu ptu restL fu fetches heqL xr restr reqsr heqR
                have hfu : fu ≤ 3 := le_trans
                  (le_of_eq (congrArg ReqLoopOut.followups heqL).symm)
                  (yo_handle_requests_loop_followups_le 3 _ _ _)
                refine ⟨hfu, Or.inr ⟨_, _, rfl, ?_, ?_⟩⟩
                · intro hty
                  exfalso
                  have hne : ptu.type ≠ "command" := by rw [hty]; decide
                  rw [accept_retry_step_nonCommand _ _ _ hne] at heqR
                  exact absurd (congrArg RetryOut.res heqR) (by simp)
                · intro hty
                  exfalso
                  have hne : ptu.type ≠ "command" := by rw [hty]; decide
                  rw [accept_retry_step_nonCommand _ _ _ hne] at heqR
                  exact absurd (congrArg RetryOut.res heqR) (by simp)
              · -- dispatch
                rename_i tu ptu restL fu fetches heqL xr fstr ptu2 restr reqsr heqR
                have hfu : fu ≤ 3 := le_trans
                  (le_of_eq (congrArg ReqLoopOut.followups heqL).symm)
                  (yo_handle_requests_loop_followups_le 3 _ _ _)
                split
                · rename_i hc1
                  refine ⟨hfu, Or.inr ⟨_, _, rfl, ?_, ?_⟩⟩
                  · intro hty
                    exfalso
                    have hne : ptu.type ≠ "command" := by rw [hty]; decide
                    rw [accept_retry_step_nonCommand _ _ _ hne] at heqR
                    have hres := congrArg RetryOut.res heqR
                    simp at hres
                    rw [← hres.2] at hc1
                    exact hne hc1
                  · intro hty
                    exfalso
                    have hne : ptu.type ≠ "command" := by rw [hty]; decide
                    rw [accept_retry_step_nonCommand _ _ _ hne] at heqR
                    have hres := congrArg RetryOut.res heqR
                    simp at hres
                    rw [← hres.2] at hc1
                    exact hne hc1
                · split
                  · rename_i hc2
                    refine ⟨hfu, Or.inr ⟨_, _, rfl, ?_, ?_⟩⟩
                    · intro hty
                      exfalso
                      have hne : ptu.type ≠ "command" := by rw [hty]; decide
                      rw [accept_retry_step_nonCommand _ _ _ hne] at heqR
                      have hres := congrArg RetryOut.res heqR
                      simp at hres
                      rw [← hres.2] at hc2
                      exact absurd (hty.symm.trans hc2) (by decide)
                    · intro hty
                      exfalso
                      have hne : ptu.type ≠ "command" := by rw [hty]; decide
                      rw [accept_retry_step_nonCommand _ _ _ hne] at heqR
                      have hres := congrArg RetryOut.res heqR
                      simp at hres
                      rw [← hres.2] at hc2
                      exact absurd (hty.symm.trans hc2) (by decide)
                  · split
                    · rename_i hn1 hn2 hc3
                      refine ⟨hfu, Or.inr ⟨_, _, rfl, ?_, ?_⟩⟩
                      · intro hty
                        exact ⟨rfl, rfl⟩
                      · intro hty
                        exfalso
                        have hne : ptu.type ≠ "command" := by rw [hty]; decide
                        rw [accept_retry_step_nonCommand _ _ _ hne] at heqR
                        have hres := congrArg RetryOut.res heqR
                        simp at hres
                        rw [← hres.2] at hc3
                        exact absurd (hty.symm.trans hc3) (by decide)
                    · rename_i hn1 hn2 hn3
                      refine ⟨hfu, Or.inr ⟨_, _, rfl, ?_, ?_⟩⟩
                      · intro hty
                        exfalso
                        have hne : ptu.type ≠ "command" := by rw [hty]; decide
                        rw [accept_retry_step_nonCommand _ _ _ hne] at heqR
                        have hres := congrArg RetryOut.res heqR
                        simp at hres
                        rw [hres.2] at hty
                        exact hn3 hty
                      · intro hty
                        exact ⟨rfl, rfl⟩

/-- Continuation loop/outcome spec: at most three follow-ups, and a
leftover sub-request reply is dropped silently (no diagnostic) without
extending the history. -/
theorem yo_continuation_hook_loop_spec (limit budget : Nat)
    (s : SessionState) (keyOk : Bool) (scrollbackText : String)
    (oracle : List ApiResult) :
    (yo_continuation_hook limit budget s keyOk scrollbackText
      oracle).followups ≤ 3 ∧
    ((yo_continuation_hook limit budget s keyOk scrollbackText
        oracle).afterLoop = none ∨
     ∃ tu ptu, (yo_continuation_hook limit budget s keyOk scrollbackText
         oracle).afterLoop = some (tu, ptu) ∧
       ((ptu.type = "scrollback" ∨ ptu.type = "docs") →
         (yo_continuation_hook limit budget s keyOk scrollbackText
           oracle).outcome = .contSilentDrop ∧
         (yo_continuation_hook limit budget s keyOk scrollbackText
           oracle).state.hist = s.hist)) := by
  unfold yo_continuation_hook
  split
  · exact ⟨Nat.zero_le 3, Or.inl rfl⟩
  · split
    · exact ⟨Nat.zero_le 3, Or.inl rfl⟩
    · split
      · exact ⟨Nat.zero_le 3, Or.inl rfl⟩
      · exact ⟨Nat.zero_le 3, Or.inl rfl⟩
      · split
        · exact ⟨Nat.zero_le 3, Or.inl rfl⟩
        · split
          · rename_i xr restr fu fetches heqL
            refine ⟨?_, Or.inl rfl⟩
            exact le_trans
              (le_of_eq (congrArg ReqLoopOut.followups heqL).symm)
              (yo_handle_requests_loop_followups_le 3 _ _ _)
          · split
            · rename_i tu ptu restL fu fetches heqL xr restr reqsr heqR
              have hfu : fu ≤ 3 := le_trans
                (le_of_eq (congrArg ReqLoopOut.followups heqL).symm)
                (yo_handle_requests_loop_followups_le 3 _ _ _)
              refine ⟨hfu, Or.inr ⟨_, _, rfl, ?_⟩⟩
              intro hty
              exfalso
              have hne : ptu.type ≠ "command" := by
                rcases hty with h | h <;> rw [h] <;> decide
              rw [yo_handle_explanation_retry_nonCommand _ _ _ hne] at heqR
              exact absurd (congrArg RetryOut.res heqR) (by simp)
            · rename_i tu ptu restL fu fetches heqL xr fstr ptu2 restr reqsr heqR
              have hfu : fu ≤ 3 := le_trans
                (le_of_eq (congrArg ReqLoopOut.followups heqL).symm)
                (yo_handle_requests_loop_followups_le 3 _ _ _)
              split
              · rename_i hc1
                refine ⟨hfu, Or.inr ⟨_, _, rfl, ?_⟩⟩
                intro hty
                exfalso
                have hne : ptu.type ≠ "command" := by
                  rcases hty with h | h <;> rw [h] <;> decide
                rw [yo_handle_explanation_retry_nonCommand _ _ _ hne] at heqR
                have hres := congrArg RetryOut.res heqR
                simp at hres
                rw [← hres.2] at hc1
                exact hne hc1
              · split
                · rename_i hc2
                  refine ⟨hfu, Or.inr ⟨_, _, rfl, ?_⟩⟩
                  intro hty
                  exfalso
                  have hne : ptu.type ≠ "command" := by
                    rcases hty with h | h <;> rw [h] <;> decide
                  rw [yo_handle_explanation_retry_nonCommand _ _ _ hne] at heqR
                  have hres := congrArg RetryOut.res heqR
                  simp at hres
                  rw [← hres.2] at hc2
                  rcases hty with h | h
                  · exact absurd (h.symm.trans hc2) (by decide)
                  · exact absurd (h.symm.trans hc2) (by decide)
                · rename_i hn1 hn2
                  refine ⟨hfu, Or.inr ⟨_, _, rfl, ?_⟩⟩
                  intro hty
                  exact ⟨rfl, rfl⟩

/-- C3 (counterexample): an accept-line turn answered by three `scrollback`
sub-requests and then a `docs` sub-request: the reply after the third
iteration is still a sub-request, but the turn terminates with the
diagnostic "Unknown response type from Claude" (the `errUnknownType`
dispatch arm), not "Too many scrollback requests" — that diagnostic is
printed only when the leftover tool is literally `scrollback`. -/
theorem C3_counterexample :
    (rl_yo_accept_line 50 10000 ⟨[], false, false, none, false⟩ "yo q" true
        [.ok (tuBlock "scrollback" "t3" (.jobj [("lines", .jnum 50)])),
         .ok (tuBlock "scrollback" "t3" (.jobj [("lines", .jnum 50)])),
         .ok (tuBlock "scrollback" "t3" (.jobj [("lines", .jnum 50)])),
         .ok (tuBlock "docs" "t4" (.jobj []))]).afterLoop =
      some (tuBlock "docs" "t4" (.jobj []),
        ⟨"docs", "", none, some "t4", false⟩) ∧
    (rl_yo_accept_line 50 10000 ⟨[], false, false, none, false⟩ "yo q" true
        [.ok (tuBlock "scrollback" "t3" (.jobj [("lines", .jnum 50)])),
         .ok (tuBlock "scrollback" "t3" (.jobj [("lines", .jnum 50)])),
         .ok (tuBlock "scrollback" "t3" (.jobj [("lines", .jnum 50)])),
         .ok (tuBlock "docs" "t4" (.jobj []))]).followups = 3 ∧
    (rl_yo_accept_line 50 10000 ⟨[], false, false, none, false⟩ "yo q" true
        [.ok (tuBlock "scrollback" "t3" (.jobj [("lines", .jnum 50)])),
         .ok (tuBlock "scrollback" "t3" (.jobj [("lines", .jnum 50)])),
         .ok (tuBlock "scrollback" "t3" (.jobj [("lines", .jnum 50)])),
         .ok (tuBlock "docs" "t4" (.jobj []))]).outcome = .errUnknownType ∧
    Outcome.errUnknownType ≠ Outcome.errTooManyScrollback := by
  refine ⟨rfl, rfl, rfl, by decide⟩

/-- C3 (amended): in every turn the sub-request loop performs at most three
follow-up requests; if the reply after the third iteration is still a
sub-request, no exchange is stored, and the accept-line path reports
"Too many scrollback requests" when that reply is `scrollback` but
"Unknown response type from Claude" when it is `docs`, while the
continuation path drops it silently with no diagnostic. -/
theorem C3_amended (limit budget : Nat) (s : SessionState) (line : String)
    (keyOk : Bool) (oracle : List ApiResult) (scrollbackText : String) :
    (rl_yo_accept_line limit budget s line keyOk oracle).followups ≤ 3 ∧
    (yo_continuation_hook limit budget s keyOk scrollbackText
      oracle).followups ≤ 3 ∧
    (∀ tu p, (rl_yo_accept_line limit budget s line keyOk oracle).afterLoop
        = some (tu, p) → p.type = "scrollback" →
      (rl_yo_accept_line limit budget s line keyOk oracle).outcome =
        .errTooManyScrollback ∧
      (rl_yo_accept_line limit budget s line keyOk
        oracle).state.hist.length = s.hist.length) ∧
    (∀ tu p, (rl_yo_accept_line limit budget s line keyOk oracle).afterLoop
        = some (tu, p) → p.type = "docs" →
      (rl_yo_accept_line limit budget s line keyOk oracle).outcome =
        .errUnknownType ∧
      (rl_yo_accept_line limit budget s line keyOk
        oracle).state.hist.length = s.hist.length) ∧
    (∀ tu p, (yo_continuation_hook limit budget s keyOk scrollbackText
        oracle).afterLoop = some (tu, p) →
      (p.type = "scrollback" ∨ p.type = "docs") →
      (yo_continuation_hook limit budget s keyOk scrollbackText
        oracle).outcome = .contSilentDrop ∧
      (yo_continuation_hook limit budget s keyOk scrollbackText
        oracle).state.hist.length = s.hist.length) := by
  obtain ⟨hafu, haspec⟩ :=
    rl_yo_accept_line_loop_spec limit budget s line keyOk oracle
  obtain ⟨hcfu, hcspec⟩ :=
    yo_continuation_hook_loop_spec limit budget s keyOk scrollbackText oracle
  refine ⟨hafu, hcfu, ?_, ?_, ?_⟩
  · intro tu p h hty
    rcases haspec with hnone | ⟨tu2, ptu2, hal, hsb, _⟩
    · rw [hnone] at h
      exact absurd h (by simp)
    · rw [hal] at h
      simp only [Option.some.injEq, Prod.mk.injEq] at h
      obtain ⟨rfl, rfl⟩ := h
      obtain ⟨h1, h2⟩ := hsb hty
      exact ⟨h1, by rw [h2, yo_track_executed_hist_length]⟩
  · intro tu p h hty
    rcases haspec with hnone | ⟨tu2, ptu2, hal, _, hdc⟩
    · rw [hnone] at h
      exact absurd h (by simp)
    · rw [hal] at h
      simp only [Option.some.injEq, Prod.mk.injEq] at h
      obtain ⟨rfl, rfl⟩ := h
      obtain ⟨h1, h2⟩ := hdc hty
      exact ⟨h1, by rw [h2, yo_track_executed_hist_length]⟩
  · intro tu p h hty
    rcases hcspec with hnone | ⟨tu2, ptu2, hal, hsd⟩
    · rw [hnone] at h
      exact absurd h (by simp)
    · rw [hal] at h
      simp only [Option.some.injEq, Prod.mk.injEq] at h
      obtain ⟨rfl, rfl⟩ := h
      obtain ⟨h1, h2⟩ := hsd hty
      exact ⟨h1, by rw [h2]⟩

/-- C3 (witness): the amended theorem applied to the four-sub-request turn
of the counterexample: the leftover `docs` reply yields the unknown-type
diagnostic and an unchanged (empty) history. -/
theorem C3_amended_witness :
    (rl_yo_accept_line 50 10000 ⟨[], false, false, none, false⟩ "yo q" true
        [.ok (tuBlock "scrollback" "t3" (.jobj [("lines", .jnum 50)])),
         .ok (tuBlock "scrollback" "t3" (.jobj [("lines", .jnum 50)])),
         .ok (tuBlock "scrollback" "t3" (.jobj [("lines", .jnum 50)])),
         .ok (tuBlock "docs" "t4" (.jobj []))]).outcome = .errUnknownType ∧
    (rl_yo_accept_line 50 10000 ⟨[], false, false, none, false⟩ "yo q" true
        [.ok (tuBlock "scrollback" "t3" (.jobj [("lines", .jnum 50)])),
         .ok (tuBlock "scrollback" "t3" (.jobj [("lines", .jnum 50)])),
         .ok (tuBlock "scrollback" "t3" (.jobj [("lines", .jnum 50)])),
         .ok (tuBlock "docs" "t4" (.jobj []))]).state.hist.length = 0 :=
  (C3_amended 50 10000 ⟨[], false, false, none, false⟩ "yo q" true
      [.ok (tuBlock "scrollback" "t3" (.jobj [("lines", .jnum 50)])),
       .ok (tuBlock "scrollback" "t3" (.jobj [("lines", .jnum 50)])),
       .ok (tuBlock "scrollback" "t3" (.jobj [("lines", .jnum 50)])),
       .ok (tuBlock "docs" "t4" (.jobj []))] "").2.2.2.1
    (tuBlock "docs" "t4" (.jobj []))
    ⟨"docs", "", none, some "t4", false⟩ rfl rfl

end Yo
